import Mathlib

/-!
Verification of MultiPlanarUNet plumbing code.

Shallow embedding of the five provided source files of the MultiPlanarUNet
repository:

* `MultiPlanarUNet/train/hparams.py`       (`YAMLHParams`)
* `MultiPlanarUNet/bin/cv_split.py`        (`entry_func`, `add_images`)
* `MultiPlanarUNet/image/image_pair_loader.py` (`ImagePairLoader`)
* `MultiPlanarUNet/train/trainer.py`       (`Trainer.fit` retry loop)
* `MultiPlanarUNet/callbacks/funcs.py`     (`init_callback_objects`)

Strings are embedded as `List Char` (named `Str` below); Python string
primitives (`str.replace`, `str.lstrip`, `str.split`, `re.sub` for the two
concrete patterns used by the code) are modelled as executable Lean functions.
Recursive scans carry an explicit fuel argument (always instantiated with the
length of the scanned string) so that every definition reduces in the kernel.
-/

namespace MPU

/-- Python strings, embedded as lists of characters. -/
abbrev Str := List Char

/-! ## Python string primitives -/

/-- Fueled worker for `replaceAll`.  Mirrors CPython `str.replace`:
scan left to right, replace each non-overlapping occurrence of `old`,
continue after the replaced text.  An empty `old` inserts `new` before
every character and once at the end (CPython semantics). -/
def replA (old new : Str) : Nat → Str → Str
  | _, [] => if old = [] then new else []
  | 0, s => s
  | f + 1, c :: s =>
    if old = [] then new ++ c :: replA old new f s
    else if old.isPrefixOf (c :: s) then new ++ replA old new f (s.drop (old.length - 1))
    else c :: replA old new f s

/-- Python `s.replace(old, new)` (replace all occurrences). -/
def replaceAll (s old new : Str) : Str := replA old new s.length s

/-- Python `sub in s` (substring containment), as an executable scan. -/
def containsSub (sub : Str) : Str → Bool
  | [] => sub.isEmpty
  | c :: s => sub.isPrefixOf (c :: s) || containsSub sub s

/-- Python `s.lstrip(cs)`: drop the leading characters that belong to `cs`. -/
def pyLstrip (cs : Str) (s : Str) : Str := s.dropWhile (fun c => cs.contains c)

/-- Python `s.rstrip(cs)`. -/
def pyRstrip (cs : Str) (s : Str) : Str := ((s.reverse).dropWhile (fun c => cs.contains c)).reverse

/-- Python `s.strip(cs)`. -/
def pyStrip (cs : Str) (s : Str) : Str := pyRstrip cs (pyLstrip cs s)

/-- Python's whitespace test for the no-argument `str.lstrip()` /
`str.strip()` forms (the characters that occur in the modelled files). -/
def isWs (c : Char) : Bool := c = ' ' || c = '\n' || c = '\t' || c = '\r'

/-- Python `s.lstrip()` with no argument (strip all whitespace). -/
def pyLstripWs (s : Str) : Str := s.dropWhile isWs

/-- Python `s.split(sep)` for a single-character separator. -/
def pySplit (sep : Char) : Str → List Str
  | [] => [[]]
  | c :: s =>
    if c = sep then [] :: pySplit sep s
    else match pySplit sep s with
      | [] => [[c]]
      | p :: ps => (c :: p) :: ps

/-- Python `s.split(sep)[0]`: the text before the first occurrence of `sep`. -/
def beforeFirst (sep : Char) (s : Str) : Str := s.takeWhile (fun c => c ≠ sep)


/-! ## The YAML fragment

The repository's hyperparameter files are two-level block mappings with
plain scalar leaves (`group:\n  key: value`).  `yamlLoad` below models what
`ruamel.yaml`'s loader returns on exactly this fragment and answers `none`
outside it (floats, quoting, deeper nesting, flow style, tabs, duplicate
keys — none of which occur in the inputs the claims are about). -/

/-- Scalar values of the YAML fragment (also the Python values the repository
passes to `set_value`). -/
inductive YVal where
  | vnone : YVal
  | vbool : Bool → YVal
  | vint : Int → YVal
  | vstr : Str → YVal
  deriving DecidableEq, Repr

/-- One group's mapping: option name to scalar value, in file order. -/
abbrev GMap := List (Str × YVal)

/-- A top-level YAML value: a plain scalar or a group mapping. -/
inductive GVal where
  | scal : YVal → GVal
  | gmap : GMap → GVal
  deriving DecidableEq, Repr

/-- A parsed YAML document: top-level key/value pairs in file order. -/
abbrev Doc := List (Str × GVal)

/-- A value stored in the `YAMLHParams` dict.  `__init__` and `set_value`
store top-level values (`top`); `add_group` stores the result of loading a
whole YAML string, i.e. a full document (`doc`). -/
inductive DVal where
  | top : GVal → DVal
  | doc : Doc → DVal
  deriving DecidableEq, Repr

/-- Digit-string to number, `none` if any character is not a digit. -/
def digitsToNat (s : Str) : Option Nat :=
  if s ≠ [] && s.all Char.isDigit then
    some (s.foldl (fun a c => a * 10 + (c.toNat - 48)) 0)
  else none

/-- YAML 1.2 core-schema integer literal (optional sign, decimal digits). -/
def parseIntTxt : Str → Option Int
  | '-' :: ds => (digitsToNat ds).map (fun n => -(n : Int))
  | '+' :: ds => (digitsToNat ds).map (fun n => (n : Int))
  | ds => (digitsToNat ds).map (fun n => (n : Int))

/-- Looks like a float literal (outside the embedded fragment). -/
def isFloatish (s : Str) : Bool :=
  let t := match s with | '-' :: r => r | '+' :: r => r | r => r
  t ≠ [] && t.all (fun c => c.isDigit || c = '.' || c = 'e' || c = 'E' || c = '-' || c = '+')
    && (t.contains '.' || t.contains 'e' || t.contains 'E')

/-- Characters whose presence in a plain scalar takes the text outside the
modelled fragment (quoting, comments, anchors, flow style, nested maps). -/
def badChar (c : Char) : Bool :=
  ("\"#&*!|>%@`[]:,".data).contains c || c.toNat = 39 || c.toNat = 123 || c.toNat = 125

/-- Parse an already space-stripped plain scalar (YAML 1.2 core schema:
null / bool / int resolution, everything else a string). -/
def parseScalar (s : Str) : Option YVal :=
  if s = [] || s = "null".data || s = "Null".data || s = "NULL".data || s = "~".data then
    some .vnone
  else if s = "true".data || s = "True".data || s = "TRUE".data then some (.vbool true)
  else if s = "false".data || s = "False".data || s = "FALSE".data then some (.vbool false)
  else match parseIntTxt s with
    | some n => some (.vint n)
    | none => if isFloatish s || s.any badChar then none else some (.vstr s)

/-- Strip spaces from both ends (scalar/key trimming inside one line). -/
def stripSpaces (s : Str) : Str := pyStrip [' '] s

/-- Parser state: finished top-level entries (in order) and the currently
open group (key, child indentation once known, entries so far). -/
structure PState where
  acc : Doc
  cur : Option (Str × Nat × GMap)

/-- Close the currently open group (a header with no children maps to null,
per YAML).  Rejects duplicate top-level keys as `ruamel` does. -/
def closeCur (st : PState) : Option Doc :=
  match st.cur with
  | none => some st.acc
  | some (k, _, m) =>
    if (st.acc.map Prod.fst).contains k then none
    else some (st.acc ++ [(k, if m = [] then GVal.scal .vnone else GVal.gmap m.reverse)])

/-- Parse one raw line (no newline) into the parser state. -/
def parseLine (st : PState) (l : Str) : Option PState :=
  if l.contains '\t' then none
  else if l.all (fun c => c = ' ') then some st
  else if (pyLstripWs l).take 1 = ['#'] then some st
  else
    let indent := (l.takeWhile (fun c => c = ' ')).length
    let content := l.drop indent
    let key := stripSpaces (beforeFirst ':' content)
    let rest := content.drop ((beforeFirst ':' content).length + 1)
    if (beforeFirst ':' content).length = content.length then none
    else if key = [] || key.any badChar then none
    else if indent = 0 then do
      let acc' ← closeCur st
      if rest = [] then
        some ⟨acc', some (key, 0, [])⟩
      else if rest.take 1 ≠ [' '] then none
      else do
        let v ← parseScalar (stripSpaces rest)
        if (acc'.map Prod.fst).contains key then none
        else some ⟨acc' ++ [(key, GVal.scal v)], none⟩
    else
      match st.cur with
      | none => none
      | some (gk, ind, m) =>
        if ind ≠ 0 && ind ≠ indent then none
        else if rest ≠ [] && rest.take 1 ≠ [' '] then none
        else do
          let v ← parseScalar (stripSpaces rest)
          if (m.map Prod.fst).contains key then none
          else some ⟨st.acc, some (gk, indent, (key, v) :: m)⟩

/-- Fold the line parser over all lines, then close the last group. -/
def parseLines : PState → List Str → Option Doc
  | st, [] => closeCur st
  | st, l :: ls => do parseLines (← parseLine st l) ls

/-- Model of `ruamel.yaml`'s `YAML().load` / `YAML(typ="safe").load` on the
two-level block-mapping fragment. -/
def yamlLoad (s : Str) : Option Doc := parseLines ⟨[], none⟩ (pySplit '\n' s)

/-! ## `YAMLHParams` (MultiPlanarUNet/train/hparams.py) -/

/-- The `YAMLHParams` object: the dict contents (`dict` superclass, in
insertion order) and the raw text `string_rep`. -/
structure HParams where
  data : List (Str × DVal)
  stringRep : Str
  deriving DecidableEq, Repr

/-- Ordered-dict lookup. -/
def lookupKV {α : Type} (k : Str) : List (Str × α) → Option α
  | [] => none
  | (k', v) :: m => if k' = k then some v else lookupKV k m

/-- Ordered-dict assignment: update in place if present, else append
(Python dict insertion-order semantics). -/
def setKV {α : Type} (k : Str) (v : α) : List (Str × α) → List (Str × α)
  | [] => [(k, v)]
  | (k', v') :: m => if k' = k then (k, v) :: m else (k', v') :: setKV k v m

/-- Ordered-dict deletion. -/
def eraseKV {α : Type} (k : Str) : List (Str × α) → List (Str × α)
  | [] => []
  | (k', v') :: m => if k' = k then m else (k', v') :: eraseKV k m

/-- The dict entries `__init__` loads from a parsed document
(hparams.py line 26): every top-level key whose first four characters are
not `"__CB"`. -/
def loadedEntries (d : Doc) : List (Str × DVal) :=
  (d.filter (fun kv => kv.1.take 4 ≠ "__CB".data)).map (fun kv => (kv.1, DVal.top kv.2))

/-- `YAMLHParams.__init__` (lines 17-26): read the file text into
`string_rep`, parse it, and load the non-`__CB` top-level entries.
Iterating a `None` document raises in Python, hence `none` for an
effectively empty file. -/
def hpInit (text : Str) : Option HParams := do
  let d ← yamlLoad text
  if d = [] then none else some ⟨loadedEntries d, text⟩

/-- Does the regex `\n^(?![ \n])(.*?:.*?\n)` match right at the start of
`'\n' :: tail`?  The lookahead forbids a space or newline after the
boundary newline, and the lazily-matched tail line must contain a colon
and be newline-terminated. -/
def qualifies (tail : Str) : Bool :=
  match tail with
  | [] => false
  | c :: _ =>
    c ≠ ' ' && c ≠ '\n' && (tail.takeWhile (fun x => x ≠ '\n')).contains ':'
      && (tail.dropWhile (fun x => x ≠ '\n')) ≠ []

/-- Fueled scan for the `groups` property: split `string_rep` at every match
start of the boundary regex, where scanning resumes after a match end
(`re.finditer` semantics).  `acc` is the reversed text of the group being
accumulated. -/
def groupsAux : Str → Nat → Str → List Str
  | acc, _, [] => [acc.reverse]
  | acc, 0, rest => [acc.reverse ++ rest]
  | acc, f + 1, c :: tail =>
    if c = '\n' && qualifies tail then
      let line := tail.takeWhile (fun x => x ≠ '\n')
      let rest := (tail.dropWhile (fun x => x ≠ '\n')).drop 1
      acc.reverse :: groupsAux (('\n' :: (line ++ ['\n'])).reverse) f rest
    else groupsAux (c :: acc) f tail

/-- The `YAMLHParams.groups` property (lines 33-42). -/
def hpGroups (s : Str) : List Str := groupsAux [] s.length s

/-- `YAMLHParams.get_group` (lines 44-46): strip each group of leading
newlines then leading spaces, and return the first stripped group whose
text before the first colon is `group_name` (`list.index` raises on no
match, hence `none`). -/
def getGroup (hp : HParams) (groupName : Str) : Option Str :=
  let gs := (hpGroups hp.stringRep).map (fun g => pyLstrip [' '] (pyLstrip ['\n'] g))
  gs.find? (fun g => beforeFirst ':' g == groupName)

/-- `YAMLHParams.add_group` (lines 48-55): the group name is the text before
the first colon (after stripping spaces, then newlines); the dict entry is
the value of `YAML().load(yaml_string)` — the whole parsed document — and
the raw string is appended to `string_rep` after a newline. -/
def addGroup (hp : HParams) (yamlString : Str) : Option HParams := do
  let groupName := beforeFirst ':' (pyLstrip ['\n'] (pyLstrip [' '] yamlString))
  let d ← yamlLoad yamlString
  some ⟨setKV groupName (DVal.doc d) hp.data, hp.stringRep ++ '\n' :: yamlString⟩

/-- `YAMLHParams.delete_group` (lines 57-59): replace the stripped group text
by the empty string in `string_rep` and delete the dict entry (KeyError when
absent, hence `none`). -/
def deleteGroup (hp : HParams) (groupName : Str) : Option HParams := do
  let g ← getGroup hp groupName
  let newRep := replaceAll hp.stringRep g []
  match lookupKV groupName hp.data with
  | some _ => some ⟨eraseKV groupName hp.data, newRep⟩
  | none => none

/-- Python `str(value)` for the scalar values the repository passes. -/
def pyStrYVal : YVal → Str
  | .vnone => "None".data
  | .vbool true => "True".data
  | .vbool false => "False".data
  | .vint n => if n < 0 then '-' :: Nat.toDigits 10 (-n).toNat else Nat.toDigits 10 n.toNat
  | .vstr s => s

/-- Does the regex `name:[ ]+(.*)[ ]?\n` match at position 0 of `s`?
Returns the match text, the capture (group 1: the rest of the line after
the greedy space run), and the remainder of `s` after the match. -/
def matchHead (name : Str) (s : Str) : Option (Str × Str × Str) :=
  if name.isPrefixOf s then
    match s.drop name.length with
    | ':' :: s2 =>
      let sp := s2.takeWhile (fun c => c = ' ')
      if sp = [] then none
      else
        let s3 := s2.drop sp.length
        let cap := s3.takeWhile (fun c => c ≠ '\n')
        match s3.drop cap.length with
        | '\n' :: rest => some (name ++ ':' :: (sp ++ cap ++ ['\n']), cap, rest)
        | _ => none
    | _ => none
  else none

/-- Fueled scan for `re.sub(pattern, rep_func, group)` in `set_value`
(lines 99-108): at each match, the replacement is the match text with every
occurrence of the capture replaced by `str(value)`
(`match.group().replace(match.groups(1)[0], str(value))`); scanning resumes
after the match. -/
def rsub (name vstr : Str) : Nat → Str → Str
  | _, [] => []
  | 0, s => s
  | f + 1, c :: s =>
    match matchHead name (c :: s) with
    | some (m, cap, rest) => replaceAll m cap vstr ++ rsub name vstr f rest
    | none => c :: rsub name vstr f s

/-- `re.sub` of the `set_value` pattern over a whole group text. -/
def reSubValue (name vstr g : Str) : Str := rsub name vstr g.length g

/-- `YAMLHParams.set_value` (lines 78-125).  `value` is a scalar (the only
kind the repository passes).  `none` models an uncaught Python exception
(KeyError on a missing subdir, TypeError for `name in <scalar>`, IndexError
when no group passes the prefix test or the group has fewer than two lines,
AssertionError when the no-match assertion fails); otherwise the updated
object and the returned boolean. -/
def setValue (hp : HParams) (subdir name : Str) (value : YVal)
    (updateStringRep overwrite : Bool) : Option (HParams × Bool) := do
  let cell ← lookupKV subdir hp.data
  let flags ←
    match cell with
    | .top (.gmap m) =>
      let cur := lookupKV name m
      some (cur.isSome, cur == some YVal.vnone, cur == some (YVal.vbool false))
    | .doc d =>
      let cur := lookupKV name d
      some (cur.isSome, cur == some (GVal.scal YVal.vnone),
            cur == some (GVal.scal (YVal.vbool false)))
    | .top (.scal _) => none
  let (exB, curNone, curFalse) := flags
  if !exB || curNone || curFalse || overwrite then
    let data' :=
      match cell with
      | .top (.gmap m) => setKV subdir (DVal.top (.gmap (setKV name value m))) hp.data
      | .doc d => setKV subdir (DVal.doc (setKV name (GVal.scal value) d)) hp.data
      | .top (.scal _) => hp.data
    if updateStringRep then do
      let group ← (hpGroups hp.stringRep).find?
          (fun g => (pyLstripWs g).take subdir.length == subdir)
      let newGroup := reSubValue name (pyStrYVal value) group
      if exB then
        some (⟨data', replaceAll hp.stringRep group newGroup⟩, true)
      else if newGroup = group then
        let ng1 := pyStrip ['\n'] newGroup
        match pySplit '\n' ng1 with
        | _ :: temp :: _ =>
          let indent := temp.length - (pyLstripWs temp).length
          let newField := List.replicate indent ' ' ++ name ++ ':' :: ' ' :: pyStrYVal value
          let ng2 := '\n' :: (ng1 ++ '\n' :: (newField ++ ['\n']))
          some (⟨data', replaceAll hp.stringRep group ng2⟩, true)
        | _ => none
      else none
    else some (⟨data', hp.stringRep⟩, true)
  else
    some (hp, false)

/-- The consistency property of claim C1: parsing `string_rep` succeeds and
its non-`__CB` top-level entries coincide with the in-memory dict. -/
def consistentB (hp : HParams) : Bool :=
  match yamlLoad hp.stringRep with
  | none => false
  | some d => loadedEntries d == hp.data

/-! ## cv_split (MultiPlanarUNet/bin/cv_split.py) -/

/-- Python `int()` applied to a fraction (truncation toward zero). -/
def pyInt (x : ℚ) : Int := if 0 ≤ x then ⌊x⌋ else ⌈x⌉

/-- The partition-size computation of `entry_func` (cv_split.py lines
174-184): `N_test = N_total // n_splits` when `n_splits > 1` else
`int(N_total * test_frac)`; `N_val = int(N_total * val_frac)`; raise
`ValueError` (here `none`) when `N_val + N_test >= N_total`; otherwise
`N_train = N_total - N_test - N_val`.  The result is
`(N_train, N_val, N_test)`. -/
def cvSplitSizes (nTotal : Nat) (nSplits : Int) (valFrac testFrac : ℚ) :
    Option (Int × Int × Int) :=
  let nTest : Int :=
    if 1 < nSplits then (nTotal : Int) / nSplits else pyInt ((nTotal : ℚ) * testFrac)
  let nVal : Int := pyInt ((nTotal : ℚ) * valFrac)
  if (nTotal : Int) ≤ nVal + nTest then none
  else some ((nTotal : Int) - nTest - nVal, nVal, nTest)

/-- numpy `array_split` section sizes: `len % n` sections of `len / n + 1`,
then `n - len % n` sections of `len / n`. -/
def splitSizes (len n : Nat) : List Nat :=
  List.replicate (len % n) (len / n + 1) ++ List.replicate (n - len % n) (len / n)

/-- Cut a list into consecutive chunks of the given sizes. -/
def takeBySizes {α : Type} : List Nat → List α → List (List α)
  | [], _ => []
  | k :: ks, l => l.take k :: takeBySizes ks (l.drop k)

/-- numpy `np.array_split(l, n)`. -/
def arraySplit {α : Type} (l : List α) (n : Nat) : List (List α) :=
  takeBySizes (splitSizes l.length n) l

/-- The per-fold test sets of `entry_func` for `n_splits > 1` (lines
192-246): the shuffled image list is `array_split` into `n_splits` parts
and part `i` is passed to `add_images(split, test_im_path, ...)` of
split `i`. -/
def cvTestSets (images : List Str) (n : Nat) : List (List Str) := arraySplit images n

/-- `cv_split.add_images` (lines 78-99): for each image the label path is
`image.replace(im_dir, lab_dir)`; a missing label file raises OSError
(`none`); otherwise the (image, label) link pairs are created in order. -/
def addImagesCv (fsPresent : List Str) (images : List Str) (imDir labDir : Str) :
    Option (List (Str × Str)) :=
  match images with
  | [] => some []
  | img :: rest =>
    let lab := replaceAll img imDir labDir
    if fsPresent.contains lab then
      (addImagesCv fsPresent rest imDir labDir).map (fun r => (img, lab) :: r)
    else none

/-! ## ImagePairLoader (MultiPlanarUNet/image/image_pair_loader.py) -/

/-- Python exceptions distinguished by the loader code. -/
inductive PyErr where
  | osErr : PyErr
  | valErr : PyErr
  deriving DecidableEq, Repr

/-- Decidable equality of `Except` results (for concrete evaluation). -/
instance exceptDecEq {ε α : Type} [DecidableEq ε] [DecidableEq α] :
    DecidableEq (Except ε α) := fun a b =>
  match a, b with
  | .error e, .error e' =>
    if h : e = e' then .isTrue (by rw [h]) else .isFalse (by intro hc; cases hc; exact h rfl)
  | .error _, .ok _ => .isFalse (by intro hc; cases hc)
  | .ok _, .error _ => .isFalse (by intro hc; cases hc)
  | .ok x, .ok y =>
    if h : x = y then .isTrue (by rw [h]) else .isFalse (by intro hc; cases hc; exact h rfl)

/-- Last path component (`os.path.split(p)[-1]`). -/
def baseName (p : Str) : Str := ((p.reverse).takeWhile (fun c => c ≠ '/')).reverse

/-- Python `str.strip()` with no argument. -/
def pyStripWs (s : Str) : Str :=
  ((s.dropWhile isWs).reverse.dropWhile isWs).reverse

/-- The filesystem visible to the loader: the set of existing paths and the
line contents of text files (only the `LIST_OF_FILES.txt` fallback is ever
read). -/
structure FileSys where
  present : List Str
  lines : Str → List Str

/-- `glob(self.images_path + "/*.nii*")`: direct children of `dir` whose
name does not start with a dot and contains `".nii"`. -/
def globNii (fsPresent : List Str) (dir : Str) : List Str :=
  fsPresent.filter (fun p =>
    (dir ++ ['/']).isPrefixOf p &&
    (p.drop (dir.length + 1) ≠ [] &&
     !((p.drop (dir.length + 1)).take 1 == ['.']) &&
     !(p.drop (dir.length + 1)).contains '/' &&
     containsSub ".nii".data (p.drop (dir.length + 1))))

/-- Lexicographic comparison of paths (Python `sorted` on strings). -/
def strLe : Str → Str → Bool
  | [], _ => true
  | _ :: _, [] => false
  | a :: as, b :: bs => if a = b then strLe as bs else decide (a < b)

/-- Stable insertion into a sorted list. -/
def insertSorted (x : Str) : List Str → List Str
  | [] => [x]
  | y :: ys => if strLe x y then x :: y :: ys else y :: insertSorted x ys

/-- Python `sorted` on path strings (stable insertion sort). -/
def sortPaths : List Str → List Str
  | [] => []
  | x :: xs => insertSorted x (sortPaths xs)

/-- `ImagePairLoader._get_paths_from_list_file` (lines 186-216): read the
stripped, non-blank lines of `LIST_OF_FILES.txt`; OSError when the file
does not exist. -/
def getPathsFromListFile (fs : FileSys) (basePath : Str) : Except PyErr (List Str) :=
  let lfp := basePath ++ '/' :: "LIST_OF_FILES.txt".data
  if fs.present.contains lfp then
    .ok ((fs.lines lfp).filterMap (fun l =>
      let p := pyStripWs l
      if p = [] then none else some p))
  else .error .osErr

/-- `ImagePairLoader.get_image_paths` (lines 218-230). -/
def getImagePaths (fs : FileSys) (imagesPath : Str) : Except PyErr (List Str) :=
  let images := sortPaths (globNii fs.present imagesPath)
  if images = [] then getPathsFromListFile fs imagesPath else .ok images

/-- `ImagePairLoader.get_label_paths` (lines 232-251): ValueError when the
image sub-directory name is not a substring of every image path; otherwise
substitute `"/img_subdir/"` by `"/label_subdir/"` in every image path. -/
def getLabelPaths (imagePaths : List Str) (imgSubdir labelSubdir : Str) :
    Except PyErr (List Str) :=
  if imagePaths.any (fun p => !(containsSub imgSubdir p)) then .error .valErr
  else .ok (imagePaths.map (fun p =>
    replaceAll p ('/' :: (imgSubdir ++ ['/'])) ('/' :: (labelSubdir ++ ['/']))))

/-- Modelled from the spec: `ImagePair` — "one image volume + optional label
volume + sample weight + identifier; lazily loaded, referenced by path"
(spec section 3).  `image_pair.py` is not among the provided sources; per
the spec the constructor only records the paths (lazy loading) and performs
no filesystem access. -/
structure ImagePair where
  imgPath : Str
  labPath : Option Str
  deriving DecidableEq, Repr

/-- The observable state of a constructed `ImagePairLoader`. -/
structure Loader where
  imagePaths : List Str
  labelPaths : Option (List Str)
  images : List ImagePair
  deriving DecidableEq, Repr

/-- `ImagePairLoader.__init__` (lines 22-99): resolve the image paths (and,
unless `predict_mode`, the label paths by sub-directory substitution),
build the `ImagePair` objects, and raise OSError (`Except.error .osErr`)
when the image path list or the label path list ends up empty. -/
def loaderInit (fs : FileSys) (baseDir imgSubdir labelSubdir : Str)
    (predictMode singleFileMode : Bool) : Except PyErr Loader :=
  if singleFileMode then .ok ⟨[], none, []⟩
  else
    match getImagePaths fs (baseDir ++ '/' :: imgSubdir) with
    | .error e => .error e
    | .ok ips =>
      match (if predictMode then Except.ok none
             else Except.map some (getLabelPaths ips imgSubdir labelSubdir)) with
      | .error e => .error e
      | .ok lps =>
        let imgs := match lps with
          | none => ips.map (fun p => ImagePair.mk p none)
          | some ls => (ips.zip ls).map (fun pl => ImagePair.mk pl.1 (some pl.2))
        if ips = [] then .error .osErr
        else if !predictMode && lps.getD [] = [] then .error .osErr
        else .ok ⟨ips, lps, imgs⟩

/-! ## Trainer.fit retry loop (MultiPlanarUNet/train/trainer.py) -/

/-- Outcome of one `_fit_loop` attempt. -/
inductive FitOutcome where
  | success : FitOutcome
  | resourceExhausted : FitOutcome
  | keyboardInterrupt : FitOutcome
  | otherError : FitOutcome
  deriving DecidableEq, Repr

/-- How `Trainer.fit`'s while-loop ends: normally (success, interrupt, or
giving up on a too-small batch) or by re-raising an exception. -/
inductive FitEnd where
  | finished : FitEnd
  | raised : FitEnd
  deriving DecidableEq, Repr

/-- Fueled worker for the retry loop of `Trainer.fit` (trainer.py lines
108-129).  The oracle gives the outcome of `_fit_loop` at a given batch
size (every attempt uses a distinct batch size).  Returns the list of
attempted batch sizes, the final `hparams["fit"]["batch_size"]`, and how
the loop ended.  On `ResourceExhaustedError` the batch size drops by 2,
`hparams` is updated, and the loop retries unless the new size is
below 1. -/
def fitRetryF (oracle : Int → FitOutcome) : Nat → Int → Int → List Int × Int × FitEnd
  | 0, bs, hbs =>
    match oracle bs with
    | .success => ([bs], hbs, .finished)
    | .keyboardInterrupt => ([bs], hbs, .finished)
    | .otherError => ([bs], hbs, .raised)
    | .resourceExhausted => ([bs], bs - 2, .finished)
  | f + 1, bs, hbs =>
    match oracle bs with
    | .success => ([bs], hbs, .finished)
    | .keyboardInterrupt => ([bs], hbs, .finished)
    | .otherError => ([bs], hbs, .raised)
    | .resourceExhausted =>
      if bs - 2 < 1 then ([bs], bs - 2, .finished)
      else
        let r := fitRetryF oracle f (bs - 2) (bs - 2)
        (bs :: r.1, r.2.1, r.2.2)

/-- The `Trainer.fit` retry loop, started at batch size `bs` with
`hparams["fit"]["batch_size"] = hbs`. -/
def fitRetry (oracle : Int → FitOutcome) (bs hbs : Int) : List Int × Int × FitEnd :=
  fitRetryF oracle bs.toNat bs hbs

/-! ## init_callback_objects (MultiPlanarUNet/callbacks/funcs.py) -/

/-- A callback descriptor dict: class name, keyword arguments (opaque),
the optional `start_from` activation epoch (absent key gives `None`), and
the `pass_logger` flag. -/
structure CbDescriptor where
  className : Str
  kwargs : List (Str × Str)
  startFrom : Option Int
  passLogger : Bool
  deriving DecidableEq, Repr

/-- An entry of the callback list: a descriptor dict or an already
initialized callback object. -/
inductive CbInput where
  | desc : CbDescriptor → CbInput
  | obj : Str → CbInput
  deriving DecidableEq, Repr

/-- An initialized callback object. -/
inductive Callback where
  | frameworkCb : Str → List (Str × Str) → Callback
  | customCb : Str → List (Str × Str) → Callback
  | preInit : Str → Callback
  | delayedCb : Callback → Int → Callback
  deriving DecidableEq, Repr

/-- The `if start_from:` wrap (funcs.py lines 45-49): a truthy activation
epoch wraps the callback in a `DelayedCallback`. -/
def wrapStart (sf : Option Int) (cb : Callback) : Callback :=
  match sf with
  | some k => if k ≠ 0 then Callback.delayedCb cb k else cb
  | none => cb

/-- One iteration of the `init_callback_objects` loop (lines 25-54):
already-initialized objects pass through (with `start_from = 0`); dict
descriptors resolve the class name against `dir(tfcb)` first, then
`dir(tcb)`, raising ValueError when the name is in neither; `pass_logger`
adds the logger to the kwargs; a truthy `start_from` wraps the result in a
`DelayedCallback`. -/
def initOneCallback (tfReg tcbReg : List Str) : CbInput → Except PyErr (Callback × Str)
  | .obj nm => .ok (.preInit nm, nm)
  | .desc d =>
    let kw := if d.passLogger then setKV "logger".data "logger".data d.kwargs else d.kwargs
    if tfReg.contains d.className then
      .ok (wrapStart d.startFrom (Callback.frameworkCb d.className kw), d.className)
    else if tcbReg.contains d.className then
      .ok (wrapStart d.startFrom (Callback.customCb d.className kw), d.className)
    else .error .valErr

/-- The loop of `init_callback_objects`, carrying the callback list (in
reverse) and the name-keyed dict. -/
def initCbAux (tfReg tcbReg : List Str) :
    List CbInput → List Callback → List (Str × Callback) →
    Except PyErr (List Callback × List (Str × Callback))
  | [], objs, dict => .ok (objs.reverse, dict)
  | cbi :: rest, objs, dict =>
    match initOneCallback tfReg tcbReg cbi with
    | .error e => .error e
    | .ok r => initCbAux tfReg tcbReg rest (r.1 :: objs) (setKV r.2 r.1 dict)

/-- `init_callback_objects` (funcs.py lines 5-56). -/
def initCallbackObjects (tfReg tcbReg : List Str) (cbs : List CbInput) :
    Except PyErr (List Callback × List (Str × Callback)) :=
  initCbAux tfReg tcbReg cbs [] []

/-! ## Occurrence counting and the key `replaceAll` frame lemmas -/

theorem replA_nil_of_not_empty (old new : Str) (f : Nat) (h : old ≠ []) :
    replA old new f [] = [] := by
  cases f <;> simp [replA, h]

/-- If `old` occurs nowhere in `s` (as a prefix of no suffix), `replace` is
the identity. -/
theorem replA_id_of_no_occ (old new : Str) (hold : old ≠ []) :
    ∀ (f : Nat) (s : Str), s.length ≤ f →
      (∀ i, ¬ old.isPrefixOf (s.drop i) = true) →
      replA old new f s = s := by
  intro f
  induction f with
  | zero =>
    intro s hf _
    have : s = [] := List.length_eq_zero.mp (Nat.le_zero.mp hf)
    subst this
    simp [replA, hold]
  | succ f ih =>
    intro s hf hno
    match s with
    | [] => simp [replA, hold]
    | c :: s =>
      have h0 : ¬ old.isPrefixOf (c :: s) = true := by simpa using hno 0
      simp only [replA, if_neg hold, if_neg h0]
      have hlen : s.length ≤ f := by
        simp only [List.length_cons] at hf; omega
      have hno' : ∀ i, ¬ old.isPrefixOf (s.drop i) = true := fun i => by
        simpa using hno (i + 1)
      rw [ih s hlen hno']

/-- The central frame lemma: if `old` is non-empty, `s = a ++ old ++ b`, and
the only position where `old` occurs in `s` is `a.length`, then Python
`s.replace(old, new)` yields `a ++ new ++ b`. -/
theorem replA_unique_occ (old new : Str) (hold : old ≠ []) :
    ∀ (a b : Str) (f : Nat), (a ++ old ++ b).length ≤ f →
      (∀ i, i ≠ a.length → ¬ old.isPrefixOf ((a ++ old ++ b).drop i) = true) →
      replA old new f (a ++ old ++ b) = a ++ new ++ b := by
  intro a
  induction a with
  | nil =>
    intro b f hf huniq
    simp only [List.nil_append] at hf huniq ⊢
    cases old with
    | nil => exact absurd rfl hold
    | cons o old' =>
      cases f with
      | zero => simp at hf
      | succ f =>
        have hcons : (o :: old') ++ b = o :: (old' ++ b) := by simp
        have hpre : (o :: old').isPrefixOf ((o :: old') ++ b) = true := by
          rw [ List.isPrefixOf_iff_prefix]
          exact ⟨b, rfl⟩
        rw [hcons]
        simp only [replA]
        rw [if_neg hold, if_pos (by rw [← hcons]; exact hpre)]
        have hdrop : (old' ++ b).drop ((o :: old').length - 1) = b := by
          simp only [List.length_cons, Nat.add_sub_cancel]
          exact List.drop_left old' b
        rw [hdrop]
        congr 1
        apply replA_id_of_no_occ _ _ hold f b
        · have : (o :: (old' ++ b)).length ≤ f + 1 := by rw [← hcons]; exact hf
          simp only [List.length_cons, List.length_append] at this
          omega
        · intro i
          have hkey := huniq ((o :: old').length + i) (by simp)
          intro hcontra
          apply hkey
          have hdr : ((o :: old') ++ b).drop ((o :: old').length + i) = b.drop i := by
            rw [List.drop_append_eq_append_drop,
                List.drop_eq_nil_of_le (Nat.le_add_right _ i),
                Nat.add_sub_cancel_left, List.nil_append]
          rw [hdr]
          exact hcontra
  | cons x a ih =>
    intro b f hf huniq
    cases f with
    | zero => simp at hf
    | succ f =>
      have hshape : (x :: a) ++ old ++ b = x :: (a ++ old ++ b) := by simp
      have hno0 : ¬ old.isPrefixOf ((x :: a) ++ old ++ b) = true := by
        simpa using huniq 0 (by simp)
      rw [hshape] at hno0
      rw [hshape]
      show replA old new (f + 1) (x :: (a ++ old ++ b)) = (x :: a) ++ new ++ b
      simp only [replA, if_neg hold, if_neg hno0]
      have hlen : (a ++ old ++ b).length ≤ f := by
        rw [hshape] at hf
        simp only [List.length_cons] at hf
        omega
      have hrec := ih b f hlen (fun i hi => by
        have hkey := huniq (i + 1) (by simp [hi])
        intro hcontra
        apply hkey
        rw [hshape, List.drop_succ_cons]
        exact hcontra)
      rw [hrec]
      simp

/-- `replaceAll` version of the frame lemma. -/
theorem replaceAll_unique_occ (old new a b : Str) (hold : old ≠ [])
    (huniq : ∀ i, i ≠ a.length → ¬ old.isPrefixOf ((a ++ old ++ b).drop i) = true) :
    replaceAll (a ++ old ++ b) old new = a ++ new ++ b :=
  replA_unique_occ old new hold a b (a ++ old ++ b).length (Nat.le_refl _) huniq

/-! ## Helper lemmas for the `set_value` frame theorem (claim C4) -/

/-- `replace` with zero fuel is the identity on a non-empty string. -/
theorem replA_zero_cons (old new : Str) (c : Char) (s : Str) :
    replA old new 0 (c :: s) = c :: s := by
  simp [replA]

/-- Unfolding `replA` at a position where `old` matches. -/
theorem replA_cons_match (old new : Str) (f : Nat) (c : Char) (s : Str) (hold : old ≠ [])
    (h : old.isPrefixOf (c :: s) = true) :
    replA old new (f + 1) (c :: s) = new ++ replA old new f (s.drop (old.length - 1)) := by
  simp only [replA]
  rw [if_neg hold, if_pos h]

/-- Unfolding `replA` at a position where `old` does not match. -/
theorem replA_cons_nomatch (old new : Str) (f : Nat) (c : Char) (s : Str) (hold : old ≠ [])
    (h : old.isPrefixOf (c :: s) = false) :
    replA old new (f + 1) (c :: s) = c :: replA old new f s := by
  simp only [replA]
  rw [if_neg hold, if_neg (by simp [h])]

/-- `str.replace` on a single newline-terminated line, with a non-empty
newline-free pattern and a newline-free replacement, yields again a single
newline-terminated line (the `rep_func` of `set_value` cannot leak text past
the end of the matched line). -/
theorem replA_line (cap v : Str) (hcap : cap ≠ []) (hcapnl : '\n' ∉ cap) (hvnl : '\n' ∉ v) :
    ∀ (f : Nat) (body : Str), '\n' ∉ body →
      ∃ r, replA cap v f (body ++ ['\n']) = r ++ ['\n'] ∧ '\n' ∉ r := by
  intro f
  induction f with
  | zero =>
    intro body hb
    refine ⟨body, ?_, hb⟩
    match hbm : body ++ ['\n'] with
    | [] => simp at hbm
    | c :: s => exact replA_zero_cons cap v c s
  | succ f ih =>
    intro body hb
    match body with
    | [] =>
      refine ⟨[], ?_, by simp⟩
      simp only [List.nil_append]
      have hnp : cap.isPrefixOf ['\n'] = false := by
        match cap, hcap with
        | x :: cap', _ =>
          by_cases hx : x = '\n'
          · subst hx
            match cap' with
            | [] => exact absurd (by simp) hcapnl
            | y :: cap'' => simp [List.isPrefixOf]
          · simp [List.isPrefixOf, hx]
      rw [replA_cons_nomatch cap v f '\n' [] hcap hnp,
        replA_nil_of_not_empty cap v f hcap]
    | c :: body' =>
      have hc : c ≠ '\n' := fun h => hb (h ▸ List.mem_cons_self c body')
      have hb' : '\n' ∉ body' := fun h => hb (List.mem_cons_of_mem c h)
      by_cases hpre : cap.isPrefixOf (c :: (body' ++ ['\n'])) = true
      · have hlen : cap.length ≤ body'.length + 1 := by
          rw [ List.isPrefixOf_iff_prefix] at hpre
          obtain ⟨t, ht⟩ := hpre
          by_cases htn : t = []
          · subst htn
            rw [List.append_nil] at ht
            exact absurd (ht ▸ (by simp : '\n' ∈ c :: (body' ++ ['\n']))) hcapnl
          · have hl := congrArg List.length ht
            simp only [List.length_append, List.length_cons, List.length_nil] at hl
            have h1 : 1 ≤ t.length := Nat.one_le_iff_ne_zero.mpr
              (fun hz => htn (List.length_eq_zero.mp hz))
            omega
        have hdropmem : '\n' ∉ body'.drop (cap.length - 1) :=
          fun h => hb' (List.mem_of_mem_drop h)
        obtain ⟨r', hr', hr'nl⟩ := ih (body'.drop (cap.length - 1)) hdropmem
        refine ⟨v ++ r', ?_, ?_⟩
        · rw [List.cons_append, replA_cons_match cap v f c (body' ++ ['\n']) hcap hpre,
            List.drop_append_of_le_length (by omega), hr']
          simp
        · intro hm
          rcases List.mem_append.mp hm with hm | hm
          · exact hvnl hm
          · exact hr'nl hm
      · obtain ⟨r', hr', hr'nl⟩ := ih body' hb'
        refine ⟨c :: r', ?_, ?_⟩
        · rw [List.cons_append,
            replA_cons_nomatch cap v f c (body' ++ ['\n']) hcap
              (Bool.not_eq_true _ ▸ hpre : cap.isPrefixOf (c :: (body' ++ ['\n'])) = false),
            hr']
          simp
        · intro hm
          rcases List.mem_cons.mp hm with hm | hm
          · exact hc hm.symm
          · exact hr'nl hm

/-- Dropping past a left factor of an append. -/
theorem drop_add_left (a b : Str) (i : Nat) :
    (a ++ b).drop (a.length + i) = b.drop i := by
  rw [List.drop_append_eq_append_drop,
      List.drop_eq_nil_of_le (Nat.le_add_right _ i),
      Nat.add_sub_cancel_left, List.nil_append]

/-- `takeWhile`/`dropWhile` across an append whose left part satisfies the
predicate everywhere and whose right part starts with a failing character. -/
theorem takeWhile_append_all (p : Char → Bool) (a b : Str)
    (ha : ∀ c ∈ a, p c = true) (hb : ∀ c ∈ b.take 1, p c = false) :
    (a ++ b).takeWhile p = a ∧ (a ++ b).dropWhile p = b := by
  induction a with
  | nil =>
    simp only [List.nil_append]
    match b with
    | [] => simp
    | c :: b' =>
      have : p c = false := hb c (by simp)
      simp [List.takeWhile, List.dropWhile, this]
  | cons x a ih =>
    have hx : p x = true := ha x (by simp)
    have ih' := ih (fun c hc => ha c (by simp [hc]))
    simp [List.takeWhile, List.dropWhile, hx, ih'.1, ih'.2]

/-- `matchHead` never matches the empty remainder. -/
theorem matchHead_nil (name : Str) : matchHead name [] = none := by
  unfold matchHead
  match name with
  | [] => simp
  | c :: name' => simp [List.isPrefixOf]

/-- `matchHead` computed on the canonical match shape
`name ++ ":" ++ spaces ++ capture ++ "\n" ++ rest`. -/
theorem matchHead_shape (name sp cap gB : Str)
    (hsp : sp ≠ []) (hspall : ∀ c ∈ sp, c = ' ')
    (hcapnl : ∀ c ∈ cap, c ≠ '\n') (hcapsp : ∀ c ∈ cap.take 1, c ≠ ' ') :
    matchHead name ((name ++ ':' :: (sp ++ cap ++ ['\n'])) ++ gB) =
      some (name ++ ':' :: (sp ++ cap ++ ['\n']), cap, gB) := by
  unfold matchHead
  have h1 : name.isPrefixOf ((name ++ ':' :: (sp ++ cap ++ ['\n'])) ++ gB) = true := by
    rw [ List.isPrefixOf_iff_prefix]
    exact ⟨_, by rw [List.append_assoc]⟩
  rw [if_pos h1]
  have h2 : ((name ++ ':' :: (sp ++ cap ++ ['\n'])) ++ gB).drop name.length =
      ':' :: (sp ++ (cap ++ '\n' :: gB)) := by
    rw [List.append_assoc]
    have := drop_add_left name (':' :: (sp ++ cap ++ ['\n']) ++ gB) 0
    simp only [Nat.add_zero, List.drop_zero] at this
    rw [this]
    simp
  rw [h2]
  have hsp_take := takeWhile_append_all (fun c => c = ' ') sp (cap ++ '\n' :: gB)
    (fun c hc => by simp [hspall c hc])
    (fun c hc => by
      match cap, hcapsp with
      | [], _ => simp at hc; simp [hc]
      | x :: cap', hcapsp =>
        simp only [List.cons_append, List.take_cons, List.take_zero] at hc
        have hx : x ≠ ' ' := hcapsp x (by simp)
        simp at hc
        subst hc
        simp [hx])
  simp only
  rw [hsp_take.1, if_neg hsp]
  have hdropsp : (sp ++ (cap ++ '\n' :: gB)).drop sp.length = cap ++ '\n' :: gB := by
    have h := drop_add_left sp (cap ++ '\n' :: gB) 0
    rw [Nat.add_zero, List.drop_zero] at h
    exact h
  rw [hdropsp]
  have hcap_take := takeWhile_append_all (fun c => c ≠ '\n') cap ('\n' :: gB)
    (fun c hc => by simp [hcapnl c hc])
    (fun c hc => by simp at hc; simp [hc])
  rw [hcap_take.1]
  have hdropcap : (cap ++ '\n' :: gB).drop cap.length = '\n' :: gB := by
    have h := drop_add_left cap ('\n' :: gB) 0
    rw [Nat.add_zero, List.drop_zero] at h
    exact h
  rw [hdropcap]
  rfl

/-- If the `set_value` pattern matches nowhere in `s`, `re.sub` is the
identity on `s`. -/
theorem rsub_id_of_no_match (name v : Str) :
    ∀ (f : Nat) (s : Str), s.length ≤ f →
      (∀ i, matchHead name (s.drop i) = none) →
      rsub name v f s = s := by
  intro f
  induction f with
  | zero =>
    intro s hf _
    have : s = [] := List.length_eq_zero.mp (Nat.le_zero.mp hf)
    subst this
    rfl
  | succ f ih =>
    intro s hf hno
    match s with
    | [] => rfl
    | c :: s =>
      have h0 : matchHead name (c :: s) = none := by simpa using hno 0
      simp only [rsub, h0]
      have hlen : s.length ≤ f := by simp only [List.length_cons] at hf; omega
      rw [ih s hlen (fun i => by simpa using hno (i + 1))]

/-- Unfolding `rsub` at a matching position. -/
theorem rsub_cons_match (name v : Str) (f : Nat) (c : Char) (s m cap rest : Str)
    (h : matchHead name (c :: s) = some (m, cap, rest)) :
    rsub name v (f + 1) (c :: s) = replaceAll m cap v ++ rsub name v f rest := by
  simp only [rsub, h]

/-- Unfolding `rsub` at a non-matching position. -/
theorem rsub_cons_nomatch (name v : Str) (f : Nat) (c : Char) (s : Str)
    (h : matchHead name (c :: s) = none) :
    rsub name v (f + 1) (c :: s) = c :: rsub name v f s := by
  simp only [rsub, h]

/-- The frame lemma for `re.sub`: if the pattern matches exactly at position
`gA.length` of `gA ++ M ++ gB` (producing match text `M` and capture `cap`),
then `re.sub` rewrites only `M`, into
`M.replace(cap, str(value))`. -/
theorem rsub_unique_match (name v cap M gB : Str) (hMne : M ≠ [])
    (hM : matchHead name (M ++ gB) = some (M, cap, gB)) :
    ∀ (gA : Str) (f : Nat), (gA ++ M ++ gB).length ≤ f →
      (∀ i, i ≠ gA.length → matchHead name ((gA ++ M ++ gB).drop i) = none) →
      rsub name v f (gA ++ M ++ gB) = gA ++ replaceAll M cap v ++ gB := by
  intro gA
  induction gA with
  | nil =>
    intro f hf huniq
    simp only [List.nil_append] at hf huniq ⊢
    match M, hMne with
    | x :: M', _ =>
      cases f with
      | zero => simp at hf
      | succ f =>
        have hM' : matchHead name (x :: (M' ++ gB)) = some (x :: M', cap, gB) := by
          rw [← List.cons_append]
          exact hM
        rw [List.cons_append]
        rw [rsub_cons_match name v f x (M' ++ gB) (x :: M') cap gB hM']
        congr 1
        apply rsub_id_of_no_match name v f gB
        · simp only [List.cons_append, List.length_cons, List.length_append] at hf
          omega
        · intro i
          have := huniq ((x :: M').length + i) (by simp)
          rw [drop_add_left] at this
          exact this
  | cons y gA ih =>
    intro f hf huniq
    cases f with
    | zero => simp at hf
    | succ f =>
      have hshape : (y :: gA) ++ M ++ gB = y :: (gA ++ M ++ gB) := by simp
      have h0 : matchHead name (y :: (gA ++ M ++ gB)) = none := by
        have := huniq 0 (by simp)
        rw [hshape] at this
        exact this
      rw [hshape]
      rw [rsub_cons_nomatch name v f y (gA ++ M ++ gB) h0]
      have hlen : (gA ++ M ++ gB).length ≤ f := by
        rw [hshape] at hf
        simp only [List.length_cons] at hf
        omega
      rw [ih f hlen (fun i hi => by
        have := huniq (i + 1) (by simp [hi])
        rw [hshape, List.drop_succ_cons] at this
        exact this)]
      simp

/-- `strip("\n")` on a group of the shape `"\n" ++ core ++ "\n"` where `core`
neither starts nor ends with a newline. -/
theorem pyStrip_core (core : Str) (hne : core ≠ [])
    (hhead : ∀ c ∈ core.take 1, c ≠ '\n') (hlast : core.getLast? ≠ some '\n') :
    pyStrip ['\n'] ('\n' :: core ++ ['\n']) = core := by
  unfold pyStrip pyLstrip pyRstrip
  match core, hne with
  | c :: core', _ =>
    have hc : c ≠ '\n' := hhead c (by simp)
    have h1 : List.dropWhile (fun x => List.contains ['\n'] x) ('\n' :: (c :: core') ++ ['\n'])
        = (c :: core') ++ ['\n'] := by
      simp only [List.cons_append, List.dropWhile]
      simp [hc]
    rw [h1]
    have h2 : ((c :: core') ++ ['\n']).reverse = '\n' :: (c :: core').reverse := by simp
    rw [h2]
    have hlast' : ∀ z ∈ ((c :: core').reverse).take 1, z ≠ '\n' := by
      intro z hz
      have hz' : (c :: core').getLast? = some z := by
        rw [List.getLast?_eq_head?_reverse]
        match hrev : (c :: core').reverse with
        | [] => simp at hrev
        | y :: rest =>
          rw [hrev] at hz
          simp only [List.take_succ_cons, List.take_zero, List.mem_singleton] at hz
          subst hz
          rfl
      intro hcontra
      subst hcontra
      exact hlast hz'
    have h3 : List.dropWhile (fun z => List.contains ['\n'] z) ('\n' :: (c :: core').reverse)
        = (c :: core').reverse := by
      match hrev : (c :: core').reverse with
      | [] => simp at hrev
      | y :: rest =>
        have hy : y ≠ '\n' := hlast' y (by rw [hrev]; simp)
        simp only [List.dropWhile]
        simp [hy]
    rw [h3, List.reverse_reverse]

/-- Unpacking a `List.range`-bounded boolean scan. -/
theorem all_range_imp {N : Nat} {p : Nat → Bool}
    (h : (List.range (N + 1)).all p = true) : ∀ i, i ≤ N → p i = true := by
  intro i hi
  exact List.all_eq_true.mp h i (List.mem_range.mpr (by omega))

/-- Frame property of `set_value` when `name` already has a line in the
selected group: the rewrite replaces only the matched line fragment
`M = name ++ ":" ++ sp ++ cap ++ "\n"` by `M.replace(cap, str(value))` —
which is again a single newline-terminated line — while the group text
around it (`gA`, `gB`) and the rest of `string_rep` (`pre`, `post`) are kept
verbatim.  `G` is the group the code selects (first group whose stripped
text starts with `subdir`). -/
theorem setValue_frame_write (hp : HParams) (subdir name : Str) (value : YVal)
    (ow : Bool) (m : GMap) (cur : YVal) (pre G post gA sp cap gB : Str)
    (hcell : lookupKV subdir hp.data = some (DVal.top (GVal.gmap m)))
    (hcur : lookupKV name m = some cur)
    (hguard : cur = YVal.vnone ∨ cur = YVal.vbool false ∨ ow = true)
    (hsel : (hpGroups hp.stringRep).find?
        (fun g => (pyLstripWs g).take subdir.length == subdir) = some G)
    (hsplit : hp.stringRep = pre ++ G ++ post)
    (hGocc : ((List.range ((pre ++ G ++ post).length + 1)).all
      (fun i => i == pre.length || !(G.isPrefixOf ((pre ++ G ++ post).drop i)))) = true)
    (hG : G = gA ++ (name ++ ':' :: (sp ++ cap ++ ['\n'])) ++ gB)
    (hnamenl : '\n' ∉ name)
    (hsp : sp ≠ []) (hspall : ∀ c ∈ sp, c = ' ')
    (hcapne : cap ≠ [])
    (hcapnl : ∀ c ∈ cap, c ≠ '\n') (hcapsp : ∀ c ∈ cap.take 1, c ≠ ' ')
    (hvnl : '\n' ∉ pyStrYVal value)
    (hmatch : ((List.range (G.length + 1)).all
      (fun i => i == gA.length || (matchHead name (G.drop i)).isNone)) = true) :
    setValue hp subdir name value true ow =
      some (⟨setKV subdir (DVal.top (GVal.gmap (setKV name value m))) hp.data,
        pre ++ (gA ++
          replaceAll (name ++ ':' :: (sp ++ cap ++ ['\n'])) cap (pyStrYVal value)
          ++ gB) ++ post⟩, true) ∧
    '\n' ∉ (replaceAll (name ++ ':' :: (sp ++ cap ++ ['\n'])) cap (pyStrYVal value)).dropLast ∧
    (replaceAll (name ++ ':' :: (sp ++ cap ++ ['\n'])) cap (pyStrYVal value)).getLast? =
      some '\n' := by
  have hMne : (name ++ ':' :: (sp ++ cap ++ ['\n'])) ≠ [] := by
    cases name <;> simp
  have hM := matchHead_shape name sp cap gB hsp hspall hcapnl hcapsp
  have hmatch' : ∀ i, i ≠ gA.length → matchHead name (G.drop i) = none := by
    intro i hi
    by_cases hib : i ≤ G.length
    · have h := all_range_imp hmatch i hib
      simp only [Bool.or_eq_true, beq_iff_eq, Option.isNone_iff_eq_none] at h
      rcases h with h | h
      · exact absurd h hi
      · exact h
    · have hdropnil : G.drop i = [] := List.drop_eq_nil_of_le (by omega)
      rw [hdropnil]
      exact matchHead_nil name
  have hsub : reSubValue name (pyStrYVal value) G =
      gA ++ replaceAll (name ++ ':' :: (sp ++ cap ++ ['\n'])) cap (pyStrYVal value) ++ gB := by
    unfold reSubValue
    rw [hG]
    exact rsub_unique_match name (pyStrYVal value) cap _ gB hMne hM gA _ (Nat.le_refl _)
      (fun i hi => by have h := hmatch' i hi; rw [hG] at h; exact h)
  have hGne : G ≠ [] := by
    rw [hG]
    intro hc
    rcases List.append_eq_nil.mp hc with ⟨hc1, hc2⟩
    rcases List.append_eq_nil.mp hc1 with ⟨_, hc3⟩
    exact hMne hc3
  have hGocc' : ∀ i, i ≠ pre.length → ¬ G.isPrefixOf ((pre ++ G ++ post).drop i) = true := by
    intro i hi
    by_cases hib : i ≤ (pre ++ G ++ post).length
    · have h := all_range_imp hGocc i hib
      simp only [Bool.or_eq_true, beq_iff_eq, Bool.not_eq_true'] at h
      rcases h with h | h
      · exact absurd h hi
      · simp only [h]
        simp
    · intro hcontra
      have hdropnil : (pre ++ G ++ post).drop i = [] := List.drop_eq_nil_of_le (by omega)
      rw [hdropnil] at hcontra
      match G, hGne with
      | x :: G', _ => simp [List.isPrefixOf] at hcontra
  have hcapnl' : '\n' ∉ cap := fun hm => (hcapnl _ hm) rfl
  have hbnl : '\n' ∉ name ++ ':' :: (sp ++ cap) := by
    intro hm
    rcases List.mem_append.mp hm with hm | hm
    · exact hnamenl hm
    · rcases List.mem_cons.mp hm with hm | hm
      · exact absurd hm (by decide)
      · rcases List.mem_append.mp hm with hm | hm
        · exact absurd (hspall _ hm) (by decide)
        · exact (hcapnl _ hm) rfl
  have hfrag : ∃ r,
      replaceAll (name ++ ':' :: (sp ++ cap ++ ['\n'])) cap (pyStrYVal value) =
        r ++ ['\n'] ∧ '\n' ∉ r := by
    unfold replaceAll
    rw [show name ++ ':' :: (sp ++ cap ++ ['\n']) =
        (name ++ ':' :: (sp ++ cap)) ++ ['\n'] from by simp]
    exact replA_line cap (pyStrYVal value) hcapne hcapnl' hvnl _ _ hbnl
  obtain ⟨r, hrfrag, hrnl⟩ := hfrag
  refine ⟨?_, ?_, ?_⟩
  · have hfinal2 : replaceAll hp.stringRep G
        (gA ++ (replaceAll (name ++ ':' :: (sp ++ (cap ++ ['\n']))) cap (pyStrYVal value) ++ gB)) =
        pre ++ (gA ++ (replaceAll (name ++ ':' :: (sp ++ (cap ++ ['\n']))) cap (pyStrYVal value) ++
          (gB ++ post))) := by
      rw [hsplit]
      have h := replaceAll_unique_occ G
        (gA ++ (replaceAll (name ++ ':' :: (sp ++ (cap ++ ['\n']))) cap (pyStrYVal value) ++ gB))
        pre post hGne hGocc'
      simpa using h
    rcases hguard with rfl | rfl | rfl <;>
      simp [setValue, hcell, hcur, hsel, hsub, hfinal2]
  · rw [hrfrag]
    simpa using hrnl
  · rw [hrfrag]
    simp

/-- Frame property of `set_value` when `name` has no line in the selected
group: the whole group text is kept and one new field line — a single
newline-free piece of text followed by `"\n"` — is appended to it (assuming
the group has the regular shape `"\n" ++ core ++ "\n"`, i.e. it is not the
file's first group and carries exactly one leading and one trailing
newline). -/
theorem setValue_frame_append (hp : HParams) (subdir name : Str) (value : YVal)
    (ow : Bool) (m : GMap) (pre G post core s0 temp : Str) (rest' : List Str)
    (hcell : lookupKV subdir hp.data = some (DVal.top (GVal.gmap m)))
    (hcur : lookupKV name m = none)
    (hnamenl : '\n' ∉ name) (hvnl : '\n' ∉ pyStrYVal value)
    (hsel : (hpGroups hp.stringRep).find?
        (fun g => (pyLstripWs g).take subdir.length == subdir) = some G)
    (hsplit : hp.stringRep = pre ++ G ++ post)
    (hGocc : ((List.range ((pre ++ G ++ post).length + 1)).all
      (fun i => i == pre.length || !(G.isPrefixOf ((pre ++ G ++ post).drop i)))) = true)
    (hnomatch : ((List.range (G.length + 1)).all
      (fun i => (matchHead name (G.drop i)).isNone)) = true)
    (hG : G = '\n' :: core ++ ['\n'])
    (hcne : core ≠ [])
    (hchead : ∀ c ∈ core.take 1, c ≠ '\n')
    (hclast : core.getLast? ≠ some '\n')
    (hsplitcore : pySplit '\n' core = s0 :: temp :: rest') :
    setValue hp subdir name value true ow =
      some (⟨setKV subdir (DVal.top (GVal.gmap (setKV name value m))) hp.data,
        pre ++ G ++
          ((List.replicate (temp.length - (pyLstripWs temp).length) ' ' ++
            name ++ ':' :: ' ' :: pyStrYVal value) ++ ['\n']) ++ post⟩, true) ∧
    '\n' ∉ (List.replicate (temp.length - (pyLstripWs temp).length) ' ' ++
      name ++ ':' :: ' ' :: pyStrYVal value) := by
  have hGne : G ≠ [] := by rw [hG]; simp
  have hnomatch' : ∀ i, matchHead name (G.drop i) = none := by
    intro i
    by_cases hib : i ≤ G.length
    · have h := all_range_imp hnomatch i hib
      simpa only [Option.isNone_iff_eq_none] using h
    · have hdropnil : G.drop i = [] := List.drop_eq_nil_of_le (by omega)
      rw [hdropnil]
      exact matchHead_nil name
  have hGocc' : ∀ i, i ≠ pre.length → ¬ G.isPrefixOf ((pre ++ G ++ post).drop i) = true := by
    intro i hi
    by_cases hib : i ≤ (pre ++ G ++ post).length
    · have h := all_range_imp hGocc i hib
      simp only [Bool.or_eq_true, beq_iff_eq, Bool.not_eq_true'] at h
      rcases h with h | h
      · exact absurd h hi
      · simp only [h]
        simp
    · intro hcontra
      have hdropnil : (pre ++ G ++ post).drop i = [] := List.drop_eq_nil_of_le (by omega)
      rw [hdropnil] at hcontra
      match G, hGne with
      | x :: G', _ => simp [List.isPrefixOf] at hcontra
  have hsub : reSubValue name (pyStrYVal value) G = G := by
    unfold reSubValue
    exact rsub_id_of_no_match name (pyStrYVal value) G.length G (Nat.le_refl _) hnomatch'
  have hstrip : pyStrip ['\n'] G = core := by
    rw [hG]
    exact pyStrip_core core hcne hchead hclast
  have hng2 : ('\n' :: (core ++ '\n' ::
      (List.replicate (temp.length - (pyLstripWs temp).length) ' ' ++
        (name ++ ':' :: ' ' :: (pyStrYVal value ++ ['\n']))))) =
      G ++ (List.replicate (temp.length - (pyLstripWs temp).length) ' ' ++
        (name ++ ':' :: ' ' :: (pyStrYVal value ++ ['\n']))) := by
    rw [hG]
    simp
  have hfinal : replaceAll hp.stringRep G
      (G ++ (List.replicate (temp.length - (pyLstripWs temp).length) ' ' ++
        (name ++ ':' :: ' ' :: (pyStrYVal value ++ ['\n'])))) =
      pre ++ (G ++ (List.replicate (temp.length - (pyLstripWs temp).length) ' ' ++
        (name ++ ':' :: ' ' :: (pyStrYVal value ++ '\n' :: post)))) := by
    rw [hsplit]
    have h := replaceAll_unique_occ G
      (G ++ (List.replicate (temp.length - (pyLstripWs temp).length) ' ' ++
        (name ++ ':' :: ' ' :: (pyStrYVal value ++ ['\n'])))) pre post hGne hGocc'
    simpa using h
  refine ⟨?_, ?_⟩
  · simp [setValue, hcell, hcur, hsel, hsub, hstrip, hsplitcore, hng2, hfinal]
  · intro hm
    rcases List.mem_append.mp hm with hm | hm
    · rcases List.mem_append.mp hm with hm | hm
      · exact absurd (List.eq_of_mem_replicate hm) (by decide)
      · exact hnamenl hm
    · rcases List.mem_cons.mp hm with hm | hm
      · exact absurd hm (by decide)
      · rcases List.mem_cons.mp hm with hm | hm
        · exact absurd hm (by decide)
        · exact hvnl hm

/-- Claim C2: whenever the size computation of `entry_func` returns
`(N_train, N_val, N_test)` instead of raising, the sizes add up to
`N_total` and `N_val + N_test < N_total`; and it raises `ValueError`
exactly when `N_val + N_test >= N_total`. -/
theorem c2_cvSplitSizes (nTotal : Nat) (nSplits : Int) (valFrac testFrac : ℚ) :
    (∀ t v s, cvSplitSizes nTotal nSplits valFrac testFrac = some (t, v, s) →
      t + v + s = (nTotal : Int) ∧ v + s < (nTotal : Int)) ∧
    (cvSplitSizes nTotal nSplits valFrac testFrac = none ↔
      (nTotal : Int) ≤ pyInt ((nTotal : ℚ) * valFrac) +
        (if 1 < nSplits then (nTotal : Int) / nSplits
         else pyInt ((nTotal : ℚ) * testFrac))) := by
  unfold cvSplitSizes
  by_cases h : (nTotal : Int) ≤ pyInt ((nTotal : ℚ) * valFrac) +
      (if 1 < nSplits then (nTotal : Int) / nSplits else pyInt ((nTotal : ℚ) * testFrac))
  · rw [if_pos h]
    exact ⟨fun t v s hsome => absurd hsome (by simp), by simp [h]⟩
  · rw [if_neg h]
    constructor
    · intro t v s hsome
      simp only [Option.some_inj, Prod.mk.injEq] at hsome
      obtain ⟨ht, hv, hs⟩ := hsome
      subst ht; subst hv; subst hs
      omega
    · simp [h]

/-- Witness for C2: 100 images, 5 folds, both fractions 1/5 give the split
60 / 20 / 20. -/
theorem c2_witness : (60 : Int) + 20 + 20 = ((100 : Nat) : Int) ∧
    (20 : Int) + 20 < ((100 : Nat) : Int) :=
  (c2_cvSplitSizes 100 5 (1/5) (1/5)).1 60 20 20 (by
    unfold cvSplitSizes pyInt
    norm_num)

/-- numpy section sizes add up to the full length. -/
theorem sum_splitSizes (len n : Nat) (hn : 0 < n) : (splitSizes len n).sum = len := by
  unfold splitSizes
  rw [List.sum_append, List.sum_replicate, List.sum_replicate, smul_eq_mul, smul_eq_mul]
  have h1 : len % n < n := Nat.mod_lt _ hn
  have h2 := Nat.div_add_mod len n
  rw [Nat.mul_succ, Nat.sub_mul]
  have h3 : (len % n) * (len / n) ≤ n * (len / n) :=
    Nat.mul_le_mul_right _ (Nat.le_of_lt h1)
  omega

/-- Cutting a list by sizes that sum to its length is a partition. -/
theorem join_takeBySizes {α : Type} : ∀ (sizes : List Nat) (l : List α),
    sizes.sum = l.length → (takeBySizes sizes l).flatten = l := by
  intro sizes
  induction sizes with
  | nil =>
    intro l h
    simp only [List.sum_nil] at h
    simp [takeBySizes, (List.length_eq_zero.mp h.symm)]
  | cons k ks ih =>
    intro l h
    simp only [takeBySizes, List.flatten_cons]
    rw [ih (l.drop k) (by simp only [List.sum_cons] at h; simp [List.length_drop]; omega)]
    exact List.take_append_drop k l

/-- In a pairwise-disjoint family, an element of the flattening lies in
exactly one part. -/
theorem countP_join_unique :
    ∀ (parts : List (List Str)) (x : Str), x ∈ parts.flatten →
      List.Pairwise List.Disjoint parts →
      parts.countP (fun p => decide (x ∈ p)) = 1 := by
  intro parts
  induction parts with
  | nil => intro x hx _; simp at hx
  | cons p ps ih =>
    intro x hx hdisj
    rw [List.countP_cons]
    rcases List.pairwise_cons.mp hdisj with ⟨hd, htl⟩
    by_cases hxp : x ∈ p
    · have hzero : ps.countP (fun q => decide (x ∈ q)) = 0 := by
        rw [List.countP_eq_zero]
        intro q hq
        simp only [decide_eq_true_eq]
        exact fun hxq => (hd q hq) hxp hxq
      simp [hzero, hxp]
    · have hx' : x ∈ ps.flatten := by
        rcases List.mem_flatten.mp hx with ⟨q, hq, hxq⟩
        rcases List.mem_cons.mp hq with rfl | hq'
        · exact absurd hxq hxp
        · exact List.mem_flatten.mpr ⟨q, hq', hxq⟩
      simp [hxp, ih x hx' htl]

/-- Claim C7: for `n_splits > 1` (and the pairwise-distinct paths `glob`
returns), the per-fold test sets of `entry_func` cover all discovered
images, are pairwise disjoint, and every image lies in the test set of
exactly one split. -/
theorem c7_cv_test_partition (images : List Str) (n : Nat)
    (hn : 1 < n) (hnd : images.Nodup) :
    (cvTestSets images n).flatten = images ∧
    List.Pairwise List.Disjoint (cvTestSets images n) ∧
    ∀ x ∈ images, (cvTestSets images n).countP (fun p => decide (x ∈ p)) = 1 := by
  have hjoin : (cvTestSets images n).flatten = images :=
    join_takeBySizes _ _ (sum_splitSizes images.length n (by omega))
  have hnodup : ((cvTestSets images n).flatten).Nodup := by rw [hjoin]; exact hnd
  have hpair : List.Pairwise List.Disjoint (cvTestSets images n) :=
    (List.nodup_flatten.mp hnodup).2
  refine ⟨hjoin, hpair, ?_⟩
  intro x hx
  exact countP_join_unique (cvTestSets images n) x (by rw [hjoin]; exact hx) hpair

/-- Witness for C7: five distinct image paths split into 2 folds. -/
theorem c7_witness :
    (cvTestSets ["a.nii".data, "b.nii".data, "c.nii".data, "d.nii".data,
        "e.nii".data] 2).flatten =
      ["a.nii".data, "b.nii".data, "c.nii".data, "d.nii".data, "e.nii".data] ∧
    List.Pairwise List.Disjoint
      (cvTestSets ["a.nii".data, "b.nii".data, "c.nii".data, "d.nii".data, "e.nii".data] 2) ∧
    ∀ x ∈ ["a.nii".data, "b.nii".data, "c.nii".data, "d.nii".data, "e.nii".data],
      (cvTestSets ["a.nii".data, "b.nii".data, "c.nii".data, "d.nii".data, "e.nii".data]
        2).countP (fun p => decide (x ∈ p)) = 1 :=
  c7_cv_test_partition
    ["a.nii".data, "b.nii".data, "c.nii".data, "d.nii".data, "e.nii".data] 2
    (by decide) (by decide)

/-- Claim C4 (amended).  `set_value(subdir, name, value)` with
`update_string_rep=True` preserves the text of every group other than the
selected one and, inside the selected group, everything outside the single
line matched by the pattern `name:[ ]+(.*)[ ]?\n` — the matched line is
rewritten into `line.replace(capture, str(value))`, which is again exactly
one newline-terminated line — and appends exactly one new single-line field
when `name` has no line, PROVIDED (each proviso forced by the code's
behaviour outside it) that: the selected group's text occurs only once in
`string_rep`; `name` and `str(value)` contain no newline; in the write case
the pattern matches at exactly one position of the group and its capture is
non-empty (an empty capture would splice `str(value)` around every
character of the line, past its newline); and in the append case the
pattern matches nowhere and the group has the regular shape
`"\n" ++ core ++ "\n"` — one leading newline (so it is not the file's first
group, to which the code would also prepend a blank line), one trailing
newline, and at least a header and one field line.  First conjunct: the
write case; second conjunct: the append case. -/
theorem c4_setValue_frame :
    (∀ (hp : HParams) (subdir name : Str) (value : YVal)
      (ow : Bool) (m : GMap) (cur : YVal) (pre G post gA sp cap gB : Str),
      lookupKV subdir hp.data = some (DVal.top (GVal.gmap m)) →
      lookupKV name m = some cur →
      (cur = YVal.vnone ∨ cur = YVal.vbool false ∨ ow = true) →
      (hpGroups hp.stringRep).find?
        (fun g => (pyLstripWs g).take subdir.length == subdir) = some G →
      hp.stringRep = pre ++ G ++ post →
      ((List.range ((pre ++ G ++ post).length + 1)).all
        (fun i => i == pre.length || !(G.isPrefixOf ((pre ++ G ++ post).drop i)))) = true →
      G = gA ++ (name ++ ':' :: (sp ++ cap ++ ['\n'])) ++ gB →
      '\n' ∉ name →
      sp ≠ [] → (∀ c ∈ sp, c = ' ') →
      cap ≠ [] →
      (∀ c ∈ cap, c ≠ '\n') → (∀ c ∈ cap.take 1, c ≠ ' ') →
      '\n' ∉ pyStrYVal value →
      ((List.range (G.length + 1)).all
        (fun i => i == gA.length || (matchHead name (G.drop i)).isNone)) = true →
      setValue hp subdir name value true ow =
        some (⟨setKV subdir (DVal.top (GVal.gmap (setKV name value m))) hp.data,
          pre ++ (gA ++
            replaceAll (name ++ ':' :: (sp ++ cap ++ ['\n'])) cap (pyStrYVal value)
            ++ gB) ++ post⟩, true) ∧
        '\n' ∉ (replaceAll (name ++ ':' :: (sp ++ cap ++ ['\n'])) cap
          (pyStrYVal value)).dropLast ∧
        (replaceAll (name ++ ':' :: (sp ++ cap ++ ['\n'])) cap
          (pyStrYVal value)).getLast? = some '\n') ∧
    (∀ (hp : HParams) (subdir name : Str) (value : YVal)
      (ow : Bool) (m : GMap) (pre G post core s0 temp : Str) (rest' : List Str),
      lookupKV subdir hp.data = some (DVal.top (GVal.gmap m)) →
      lookupKV name m = none →
      '\n' ∉ name → '\n' ∉ pyStrYVal value →
      (hpGroups hp.stringRep).find?
        (fun g => (pyLstripWs g).take subdir.length == subdir) = some G →
      hp.stringRep = pre ++ G ++ post →
      ((List.range ((pre ++ G ++ post).length + 1)).all
        (fun i => i == pre.length || !(G.isPrefixOf ((pre ++ G ++ post).drop i)))) = true →
      ((List.range (G.length + 1)).all
        (fun i => (matchHead name (G.drop i)).isNone)) = true →
      G = '\n' :: core ++ ['\n'] →
      core ≠ [] →
      (∀ c ∈ core.take 1, c ≠ '\n') →
      core.getLast? ≠ some '\n' →
      pySplit '\n' core = s0 :: temp :: rest' →
      setValue hp subdir name value true ow =
        some (⟨setKV subdir (DVal.top (GVal.gmap (setKV name value m))) hp.data,
          pre ++ G ++
            ((List.replicate (temp.length - (pyLstripWs temp).length) ' ' ++
              name ++ ':' :: ' ' :: pyStrYVal value) ++ ['\n']) ++ post⟩, true) ∧
        '\n' ∉ (List.replicate (temp.length - (pyLstripWs temp).length) ' ' ++
          name ++ ':' :: ' ' :: pyStrYVal value)) :=
  ⟨setValue_frame_write, setValue_frame_append⟩

/-- Counterexample for claim C4 as stated: on the object loaded from
`"fit:\n  batch_size: Null\n  size: Null\n"`, the call
`set_value("fit", "size", 7)` also rewrites the `batch_size` line (the
regex `size:[ ]+(.*)[ ]?\n` matches inside `batch_size: Null\n`): the
resulting `string_rep` is `"fit:\n  batch_size: 7\n  size: 7\n"`, in which
the untouched line `  batch_size: Null` no longer occurs — although the
in-memory dict still holds `batch_size: None`. -/
theorem c4_counterexample :
    (hpInit "fit:\n  batch_size: Null\n  size: Null\n".data).bind
        (fun hp => setValue hp "fit".data "size".data (YVal.vint 7) true false) =
      some (⟨[("fit".data, DVal.top (GVal.gmap
          [("batch_size".data, YVal.vnone), ("size".data, YVal.vint 7)]))],
        "fit:\n  batch_size: 7\n  size: 7\n".data⟩, true) ∧
    containsSub "batch_size: Null".data "fit:\n  batch_size: 7\n  size: 7\n".data = false := by
  refine ⟨by decide, by decide⟩

/-- Witness for C4: both conjuncts applied on the object with
`string_rep = "mod:\n  dim: Null\n\nfit:\n  lr: Null\n  x: 1\n"`:
overwriting `lr` (currently `Null`) with `5` rewrites only the matched
`  lr: Null\n` tail of that one line (into a single newline-terminated
line), and setting the absent key `nk` to `3` appends the single line
`  nk: 3` to the `fit` group. -/
theorem c4_witness :
    (setValue ⟨[("mod".data, DVal.top (GVal.gmap [("dim".data, YVal.vnone)])),
        ("fit".data, DVal.top (GVal.gmap [("lr".data, YVal.vnone), ("x".data, YVal.vint 1)]))],
        "mod:\n  dim: Null\n\nfit:\n  lr: Null\n  x: 1\n".data⟩
      "fit".data "lr".data (YVal.vint 5) true false =
      some (⟨setKV "fit".data (DVal.top (GVal.gmap
          (setKV "lr".data (YVal.vint 5) [("lr".data, YVal.vnone), ("x".data, YVal.vint 1)])))
          [("mod".data, DVal.top (GVal.gmap [("dim".data, YVal.vnone)])),
            ("fit".data, DVal.top (GVal.gmap [("lr".data, YVal.vnone), ("x".data, YVal.vint 1)]))],
        "mod:\n  dim: Null\n".data ++
          ("\nfit:\n  ".data ++
            replaceAll ("lr".data ++ ':' :: (" ".data ++ "Null".data ++ ['\n']))
              "Null".data (pyStrYVal (YVal.vint 5)) ++
            "  x: 1\n".data) ++ []⟩, true) ∧
      '\n' ∉ (replaceAll ("lr".data ++ ':' :: (" ".data ++ "Null".data ++ ['\n']))
        "Null".data (pyStrYVal (YVal.vint 5))).dropLast ∧
      (replaceAll ("lr".data ++ ':' :: (" ".data ++ "Null".data ++ ['\n']))
        "Null".data (pyStrYVal (YVal.vint 5))).getLast? = some '\n') ∧
    (setValue ⟨[("mod".data, DVal.top (GVal.gmap [("dim".data, YVal.vnone)])),
        ("fit".data, DVal.top (GVal.gmap [("lr".data, YVal.vnone), ("x".data, YVal.vint 1)]))],
        "mod:\n  dim: Null\n\nfit:\n  lr: Null\n  x: 1\n".data⟩
      "fit".data "nk".data (YVal.vint 3) true false =
      some (⟨setKV "fit".data (DVal.top (GVal.gmap
          (setKV "nk".data (YVal.vint 3) [("lr".data, YVal.vnone), ("x".data, YVal.vint 1)])))
          [("mod".data, DVal.top (GVal.gmap [("dim".data, YVal.vnone)])),
            ("fit".data, DVal.top (GVal.gmap [("lr".data, YVal.vnone), ("x".data, YVal.vint 1)]))],
        "mod:\n  dim: Null\n".data ++ "\nfit:\n  lr: Null\n  x: 1\n".data ++
          ((List.replicate ("  lr: Null".data.length - (pyLstripWs "  lr: Null".data).length) ' ' ++
            "nk".data ++ ':' :: ' ' :: pyStrYVal (YVal.vint 3)) ++ ['\n']) ++ []⟩, true) ∧
      '\n' ∉ (List.replicate ("  lr: Null".data.length -
          (pyLstripWs "  lr: Null".data).length) ' ' ++
        "nk".data ++ ':' :: ' ' :: pyStrYVal (YVal.vint 3))) :=
  ⟨c4_setValue_frame.1
      ⟨[("mod".data, DVal.top (GVal.gmap [("dim".data, YVal.vnone)])),
        ("fit".data, DVal.top (GVal.gmap [("lr".data, YVal.vnone), ("x".data, YVal.vint 1)]))],
        "mod:\n  dim: Null\n\nfit:\n  lr: Null\n  x: 1\n".data⟩
      "fit".data "lr".data (YVal.vint 5) false
      [("lr".data, YVal.vnone), ("x".data, YVal.vint 1)] YVal.vnone
      "mod:\n  dim: Null\n".data "\nfit:\n  lr: Null\n  x: 1\n".data []
      "\nfit:\n  ".data " ".data "Null".data "  x: 1\n".data
      (by decide) (by decide) (Or.inl rfl) (by decide) (by decide) (by decide)
      (by decide) (by decide) (by decide) (by decide) (by decide) (by decide)
      (by decide) (by decide) (by decide),
    c4_setValue_frame.2
      ⟨[("mod".data, DVal.top (GVal.gmap [("dim".data, YVal.vnone)])),
        ("fit".data, DVal.top (GVal.gmap [("lr".data, YVal.vnone), ("x".data, YVal.vint 1)]))],
        "mod:\n  dim: Null\n\nfit:\n  lr: Null\n  x: 1\n".data⟩
      "fit".data "nk".data (YVal.vint 3) false
      [("lr".data, YVal.vnone), ("x".data, YVal.vint 1)]
      "mod:\n  dim: Null\n".data "\nfit:\n  lr: Null\n  x: 1\n".data []
      "fit:\n  lr: Null\n  x: 1".data "fit:".data "  lr: Null".data ["  x: 1".data]
      (by decide) (by decide) (by decide) (by decide) (by decide) (by decide)
      (by decide) (by decide) (by decide) (by decide) (by decide) (by decide)
      (by decide)⟩

/-! ## Helper lemmas for claims C3 and C10 -/

/-- The base name of `X ++ "/" ++ f` is `f` when `f` has no slash. -/
theorem baseName_append (X f : Str) (hf : '/' ∉ f) :
    baseName (X ++ '/' :: f) = f := by
  unfold baseName
  have h1 : (X ++ '/' :: f).reverse = f.reverse ++ '/' :: X.reverse := by simp
  rw [h1]
  have h2 := takeWhile_append_all (fun c => c ≠ '/') f.reverse ('/' :: X.reverse)
    (fun c hc => by
      simp only [decide_eq_true_eq]
      intro hcontra
      subst hcontra
      exact hf (List.mem_reverse.mp hc))
    (fun c hc => by
      simp only [List.take_succ_cons, List.take_zero, List.mem_singleton] at hc
      subst hc
      simp)
  rw [h2.1, List.reverse_reverse]

/-- Substituting `old` by `new` in `a ++ old ++ b` when the only occurrence
of `old` is at position `a.length` (bounded boolean premise). -/
theorem subst_mid_path (a old new b : Str) (hne : old ≠ [])
    (hocc : ((List.range ((a ++ old ++ b).length + 1)).all
      (fun i => i == a.length || !(old.isPrefixOf ((a ++ old ++ b).drop i)))) = true) :
    replaceAll (a ++ old ++ b) old new = a ++ new ++ b := by
  apply replaceAll_unique_occ old new a b hne
  intro i hi
  by_cases hib : i ≤ (a ++ old ++ b).length
  · have h := all_range_imp hocc i hib
    simp only [Bool.or_eq_true, beq_iff_eq, Bool.not_eq_true'] at h
    rcases h with h | h
    · exact absurd h hi
    · simp only [h]
      simp
  · intro hcontra
    have hdropnil : (a ++ old ++ b).drop i = [] := List.drop_eq_nil_of_le (by omega)
    rw [hdropnil] at hcontra
    match old, hne with
    | x :: old', _ => simp [List.isPrefixOf] at hcontra

/-- `add_images` raises OSError exactly when some image's substituted label
path does not exist. -/
theorem addImagesCv_none_iff (fsPresent : List Str) (imDir labDir : Str) :
    ∀ images, addImagesCv fsPresent images imDir labDir = none ↔
      ∃ img ∈ images, fsPresent.contains (replaceAll img imDir labDir) = false := by
  intro images
  induction images with
  | nil => simp [addImagesCv]
  | cons img rest ih =>
    simp only [addImagesCv]
    by_cases h : fsPresent.contains (replaceAll img imDir labDir) = true
    · rw [if_pos h]
      constructor
      · intro hn
        have hrec : addImagesCv fsPresent rest imDir labDir = none := by
          cases hr : addImagesCv fsPresent rest imDir labDir with
          | none => rfl
          | some l => rw [hr] at hn; simp at hn
        rcases ih.mp hrec with ⟨i, hi, hif⟩
        exact ⟨i, List.mem_cons_of_mem _ hi, hif⟩
      · rintro ⟨i, hi, hif⟩
        rcases List.mem_cons.mp hi with rfl | hi'
        · rw [h] at hif; exact absurd hif (by simp)
        · rw [ih.mpr ⟨i, hi', hif⟩]; rfl
    · rw [if_neg h]
      exact ⟨fun _ => ⟨img, List.mem_cons_self img rest,
        by simpa using h⟩, fun _ => rfl⟩

/-- When `add_images` succeeds, the links it creates are exactly the
(image, substituted label) pairs, and each label exists. -/
theorem addImagesCv_ok (fsPresent : List Str) (imDir labDir : Str) :
    ∀ images links, addImagesCv fsPresent images imDir labDir = some links →
      links = images.map (fun img => (img, replaceAll img imDir labDir)) ∧
      ∀ pair ∈ links, fsPresent.contains pair.2 = true := by
  intro images
  induction images with
  | nil =>
    intro links h
    simp only [addImagesCv, Option.some_inj] at h
    subst h
    simp
  | cons img rest ih =>
    intro links h
    simp only [addImagesCv] at h
    by_cases hc : fsPresent.contains (replaceAll img imDir labDir) = true
    · rw [if_pos hc] at h
      cases hr : addImagesCv fsPresent rest imDir labDir with
      | none => rw [hr] at h; simp at h
      | some l =>
        rw [hr] at h
        simp only [Option.map_some', Option.some_inj] at h
        rcases ih l hr with ⟨hl, hall⟩
        subst h
        refine ⟨by rw [hl]; rfl, ?_⟩
        intro pair hpair
        rcases List.mem_cons.mp hpair with rfl | hpair'
        · exact hc
        · exact hall pair hpair'
    · rw [if_neg hc] at h
      exact absurd h (by simp)

/-- If the loader is constructed (no exception) with `predict_mode=False`,
its label paths are exactly the image paths with the image sub-directory
substituted — no existence check is performed. -/
theorem loaderInit_label_subst (fs : FileSys) (baseDir imgSubdir labelSubdir : Str)
    (ldr : Loader)
    (hok : loaderInit fs baseDir imgSubdir labelSubdir false false = .ok ldr) :
    ldr.labelPaths = some (ldr.imagePaths.map (fun p =>
      replaceAll p ('/' :: (imgSubdir ++ ['/'])) ('/' :: (labelSubdir ++ ['/'])))) ∧
    ldr.imagePaths ≠ [] := by
  unfold loaderInit at hok
  simp only [Bool.false_eq_true, if_false] at hok
  cases h1 : getImagePaths fs (baseDir ++ '/' :: imgSubdir) with
  | error e => rw [h1] at hok; exact absurd hok (by simp)
  | ok ips =>
    rw [h1] at hok
    simp only [Bool.false_eq_true, if_false] at hok
    cases h2 : getLabelPaths ips imgSubdir labelSubdir with
    | error e => rw [h2] at hok; simp [Except.map] at hok
    | ok ls =>
      rw [h2] at hok
      simp only [Except.map] at hok
      have hls : ls = ips.map (fun p =>
          replaceAll p ('/' :: (imgSubdir ++ ['/'])) ('/' :: (labelSubdir ++ ['/']))) := by
        unfold getLabelPaths at h2
        by_cases ha : ips.any (fun p => !(containsSub imgSubdir p)) = true
        · rw [if_pos ha] at h2; exact absurd h2 (by simp)
        · rw [if_neg ha] at h2
          simp only [Except.ok.injEq] at h2
          exact h2.symm
      by_cases h3 : ips = []
      · rw [if_pos h3] at hok; exact absurd hok (by simp)
      · rw [if_neg h3] at hok
        by_cases h4 : ls = []
        · simp [h4] at hok
        · simp only [Bool.not_false, Bool.true_and, Option.getD_some] at hok
          rw [if_neg (by simpa using h4)] at hok
          simp only [Except.ok.injEq] at hok
          subst hok
          exact ⟨by rw [hls], h3⟩

/-- Counterexample for claim C3 as stated: with only the image file
`/d/images/a.nii` on disk and no label file at all, constructing
`ImagePairLoader` with `predict_mode=False` succeeds (registering an
`ImagePair` whose label path `/d/labels/a.nii` names a non-existent file)
instead of raising OSError. -/
theorem c3_counterexample :
    loaderInit ⟨["/d/images/a.nii".data], fun _ => []⟩
        "/d".data "images".data "labels".data false false =
      .ok ⟨["/d/images/a.nii".data], some ["/d/labels/a.nii".data],
        [⟨"/d/images/a.nii".data, some "/d/labels/a.nii".data⟩]⟩ ∧
    (["/d/images/a.nii".data] : List Str).contains "/d/labels/a.nii".data = false := by
  refine ⟨by decide, by decide⟩

/-- Claim C3 (amended).  For `cv_split.add_images`: the label of every
placed image is the image path with `im_dir` substituted by `lab_dir`
(preserving the file name, since the images come from a glob directly
under `im_dir`), and OSError is raised exactly when some such label file
does not exist.  For `ImagePairLoader` with `predict_mode=False`: the label
paths are the image paths with `"/img_subdir/"` substituted by
`"/label_subdir/"` (again preserving the file name), but no existence
check is made — a missing label file does not raise at registration. -/
theorem c3_label_paths :
    (∀ (fsPresent : List Str) (imDir labDir : Str) (images : List Str),
      (addImagesCv fsPresent images imDir labDir = none ↔
        ∃ img ∈ images, fsPresent.contains (replaceAll img imDir labDir) = false)) ∧
    (∀ (fsPresent : List Str) (imDir labDir : Str) (images : List Str)
      (links : List (Str × Str)),
      addImagesCv fsPresent images imDir labDir = some links →
        links = images.map (fun img => (img, replaceAll img imDir labDir)) ∧
        ∀ pair ∈ links, fsPresent.contains pair.2 = true) ∧
    (∀ (imDir labDir f : Str), imDir ≠ [] → '/' ∉ f →
      ((List.range ((imDir ++ '/' :: f).length + 1)).all
        (fun i => i == 0 || !(imDir.isPrefixOf ((imDir ++ '/' :: f).drop i)))) = true →
      replaceAll (imDir ++ '/' :: f) imDir labDir = labDir ++ '/' :: f ∧
      baseName (imDir ++ '/' :: f) = f ∧ baseName (labDir ++ '/' :: f) = f) ∧
    (∀ (fs : FileSys) (baseDir imgSubdir labelSubdir : Str) (ldr : Loader),
      loaderInit fs baseDir imgSubdir labelSubdir false false = .ok ldr →
      ldr.labelPaths = some (ldr.imagePaths.map (fun p =>
        replaceAll p ('/' :: (imgSubdir ++ ['/'])) ('/' :: (labelSubdir ++ ['/'])))) ∧
      ldr.imagePaths ≠ []) ∧
    (∀ (D imgSubdir labelSubdir f : Str), '/' ∉ f →
      ((List.range ((D ++ ('/' :: (imgSubdir ++ ['/'])) ++ f).length + 1)).all
        (fun i => i == D.length ||
          !(('/' :: (imgSubdir ++ ['/'])).isPrefixOf
            ((D ++ ('/' :: (imgSubdir ++ ['/'])) ++ f).drop i)))) = true →
      replaceAll (D ++ ('/' :: (imgSubdir ++ ['/'])) ++ f)
          ('/' :: (imgSubdir ++ ['/'])) ('/' :: (labelSubdir ++ ['/'])) =
        D ++ ('/' :: (labelSubdir ++ ['/'])) ++ f ∧
      baseName (D ++ ('/' :: (imgSubdir ++ ['/'])) ++ f) = f ∧
      baseName (D ++ ('/' :: (labelSubdir ++ ['/'])) ++ f) = f) := by
  refine ⟨addImagesCv_none_iff, addImagesCv_ok, ?_, loaderInit_label_subst, ?_⟩
  · intro imDir labDir f hne hf hocc
    refine ⟨?_, baseName_append imDir f hf, baseName_append labDir f hf⟩
    have h := subst_mid_path [] imDir labDir ('/' :: f) hne (by simpa using hocc)
    simpa using h
  · intro D imgSubdir labelSubdir f hf hocc
    refine ⟨subst_mid_path D ('/' :: (imgSubdir ++ ['/'])) ('/' :: (labelSubdir ++ ['/'])) f
      (by simp) hocc, ?_, ?_⟩
    · have hshape : D ++ ('/' :: (imgSubdir ++ ['/'])) ++ f =
          (D ++ '/' :: imgSubdir) ++ '/' :: f := by simp
      rw [hshape]
      exact baseName_append _ f hf
    · have hshape : D ++ ('/' :: (labelSubdir ++ ['/'])) ++ f =
          (D ++ '/' :: labelSubdir) ++ '/' :: f := by simp
      rw [hshape]
      exact baseName_append _ f hf

/-- Witness for C3: on the filesystem holding `/d/images/a.nii` and
`/d/labels/a.nii`, `add_images` links the pair and `ImagePairLoader`
derives the matching label path with the same file name. -/
theorem c3_witness :
    (addImagesCv ["/d/images/a.nii".data, "/d/labels/a.nii".data]
        ["/d/images/a.nii".data] "/d/images".data "/d/labels".data = none ↔
      ∃ img ∈ (["/d/images/a.nii".data] : List Str),
        (["/d/images/a.nii".data, "/d/labels/a.nii".data] : List Str).contains
          (replaceAll img "/d/images".data "/d/labels".data) = false) ∧
    (replaceAll ("/d/images".data ++ '/' :: "a.nii".data) "/d/images".data "/d/labels".data =
        "/d/labels".data ++ '/' :: "a.nii".data ∧
      baseName ("/d/images".data ++ '/' :: "a.nii".data) = "a.nii".data ∧
      baseName ("/d/labels".data ++ '/' :: "a.nii".data) = "a.nii".data) ∧
    ((⟨["/d/images/a.nii".data], some ["/d/labels/a.nii".data],
        [⟨"/d/images/a.nii".data, some "/d/labels/a.nii".data⟩]⟩ : Loader).labelPaths =
      some ((⟨["/d/images/a.nii".data], some ["/d/labels/a.nii".data],
        [⟨"/d/images/a.nii".data, some "/d/labels/a.nii".data⟩]⟩ : Loader).imagePaths.map
          (fun p => replaceAll p ('/' :: ("images".data ++ ['/']))
            ('/' :: ("labels".data ++ ['/'])))) ∧
      (⟨["/d/images/a.nii".data], some ["/d/labels/a.nii".data],
        [⟨"/d/images/a.nii".data, some "/d/labels/a.nii".data⟩]⟩ : Loader).imagePaths ≠ []) :=
  ⟨c3_label_paths.1 ["/d/images/a.nii".data, "/d/labels/a.nii".data]
      "/d/images".data "/d/labels".data ["/d/images/a.nii".data],
    c3_label_paths.2.2.1 "/d/images".data "/d/labels".data "a.nii".data
      (by decide) (by decide) (by decide),
    c3_label_paths.2.2.2.1 ⟨["/d/images/a.nii".data], fun _ => []⟩
      "/d".data "images".data "labels".data
      ⟨["/d/images/a.nii".data], some ["/d/labels/a.nii".data],
        [⟨"/d/images/a.nii".data, some "/d/labels/a.nii".data⟩]⟩ (by decide)⟩

/-- Claim C10: with `single_file_mode=False`, the loader raises OSError
rather than producing an empty object — when no `*.nii*` file matches and
no `LIST_OF_FILES.txt` exists (first conjunct, any `predict_mode`), when
the image-path stage produces an empty list (second conjunct, so in every
scenario where the label list would be empty an OSError is raised), and a
successfully constructed loader always carries non-empty image and label
path lists (third conjunct). -/
theorem c10_loader_empty_oserror :
    (∀ (fs : FileSys) (baseDir imgSubdir labelSubdir : Str) (pm : Bool),
      globNii fs.present (baseDir ++ '/' :: imgSubdir) = [] →
      fs.present.contains
        ((baseDir ++ '/' :: imgSubdir) ++ '/' :: "LIST_OF_FILES.txt".data) = false →
      loaderInit fs baseDir imgSubdir labelSubdir pm false = .error .osErr) ∧
    (∀ (fs : FileSys) (baseDir imgSubdir labelSubdir : Str),
      getImagePaths fs (baseDir ++ '/' :: imgSubdir) = .ok [] →
      loaderInit fs baseDir imgSubdir labelSubdir false false = .error .osErr) ∧
    (∀ (fs : FileSys) (baseDir imgSubdir labelSubdir : Str) (ldr : Loader),
      loaderInit fs baseDir imgSubdir labelSubdir false false = .ok ldr →
      ∃ ls, ldr.labelPaths = some ls ∧ ls ≠ [] ∧ ldr.imagePaths ≠ []) := by
  refine ⟨?_, ?_, ?_⟩
  · intro fs baseDir imgSubdir labelSubdir pm hglob hlist
    have himg : getImagePaths fs (baseDir ++ '/' :: imgSubdir) = .error .osErr := by
      unfold getImagePaths getPathsFromListFile
      rw [hglob]
      have hmem : ((baseDir ++ '/' :: imgSubdir) ++ '/' :: "LIST_OF_FILES.txt".data) ∉
          fs.present := by
        intro hm
        have h : fs.present.contains
            ((baseDir ++ '/' :: imgSubdir) ++ '/' :: "LIST_OF_FILES.txt".data) = true :=
          List.elem_iff.mpr hm
        rw [hlist] at h
        exact Bool.noConfusion h
      simp [hlist, sortPaths]
      simpa using hmem
    unfold loaderInit
    rw [himg]
    simp
  · intro fs baseDir imgSubdir labelSubdir himg
    unfold loaderInit
    rw [himg]
    simp [getLabelPaths, Except.map]
  · intro fs baseDir imgSubdir labelSubdir ldr hok
    rcases loaderInit_label_subst fs baseDir imgSubdir labelSubdir ldr hok with ⟨hl, hne⟩
    refine ⟨_, hl, ?_, hne⟩
    intro hcontra
    exact hne (List.map_eq_nil_iff.mp hcontra)

/-! ## Helper lemmas for claim C5 -/

/-- Fuel does not matter once it covers the batch size. -/
theorem fitRetryF_fuel (oracle : Int → FitOutcome) :
    ∀ (f g : Nat) (bs hbs : Int), bs.toNat ≤ f → bs.toNat ≤ g →
      fitRetryF oracle f bs hbs = fitRetryF oracle g bs hbs := by
  intro f
  induction f with
  | zero =>
    intro g bs hbs hf hg
    match g with
    | 0 => rfl
    | g + 1 =>
      simp only [fitRetryF]
      cases ho : oracle bs
      · rfl
      · rw [if_pos (by omega)]
      · rfl
      · rfl
  | succ f ih =>
    intro g bs hbs hf hg
    match g with
    | 0 =>
      simp only [fitRetryF]
      cases ho : oracle bs
      · rfl
      · rw [if_pos (by omega)]
      · rfl
      · rfl
    | g + 1 =>
      simp only [fitRetryF]
      cases ho : oracle bs
      · rfl
      · by_cases hlt : bs - 2 < 1
        · rw [if_pos hlt, if_pos hlt]
        · rw [if_neg hlt, if_neg hlt]
          rw [ih g (bs - 2) (bs - 2) (by omega) (by omega)]
      · rfl
      · rfl

/-- One-step characterization of the retry loop. -/
theorem fitRetry_unfold (oracle : Int → FitOutcome) (bs hbs : Int) :
    fitRetry oracle bs hbs =
      match oracle bs with
      | .success => ([bs], hbs, .finished)
      | .keyboardInterrupt => ([bs], hbs, .finished)
      | .otherError => ([bs], hbs, .raised)
      | .resourceExhausted =>
        if bs - 2 < 1 then ([bs], bs - 2, .finished)
        else (bs :: (fitRetry oracle (bs - 2) (bs - 2)).1,
          (fitRetry oracle (bs - 2) (bs - 2)).2.1,
          (fitRetry oracle (bs - 2) (bs - 2)).2.2) := by
  unfold fitRetry
  rcases hn : bs.toNat with _ | n
  · simp only [fitRetryF]
    cases ho : oracle bs
    · rfl
    · rw [if_pos (by omega)]
    · rfl
    · rfl
  · simp only [fitRetryF]
    cases ho : oracle bs
    · rfl
    · by_cases hlt : bs - 2 < 1
      · rw [if_pos hlt, if_pos hlt]
      · rw [if_neg hlt, if_neg hlt]
        rw [fitRetryF_fuel oracle n (bs - 2).toNat (bs - 2) (bs - 2) (by omega) (Nat.le_refl _)]
    · rfl
    · rfl

/-- The inductive core of claim C5, by strong induction on the batch
size. -/
theorem fitRetry_props (oracle : Int → FitOutcome) :
    ∀ (n : Nat) (bs hbs : Int), bs.toNat ≤ n →
    (fitRetry oracle bs hbs).1.head? = some bs ∧
    (∀ i a b, (fitRetry oracle bs hbs).1[i]? = some a →
      (fitRetry oracle bs hbs).1[i+1]? = some b →
      oracle a = .resourceExhausted ∧ b = a - 2 ∧ 1 ≤ b) ∧
    (∀ last, (fitRetry oracle bs hbs).1.getLast? = some last →
      ((oracle last = .resourceExhausted →
          (fitRetry oracle bs hbs).2.1 = last - 2 ∧ last - 2 < 1 ∧
          (fitRetry oracle bs hbs).2.2 = .finished) ∧
        (oracle last ≠ .resourceExhausted →
          ((fitRetry oracle bs hbs).1.length = 1 → (fitRetry oracle bs hbs).2.1 = hbs) ∧
          (2 ≤ (fitRetry oracle bs hbs).1.length → (fitRetry oracle bs hbs).2.1 = last)) ∧
        ((fitRetry oracle bs hbs).2.2 = .raised ↔ oracle last = .otherError))) := by
  intro n
  induction n with
  | zero =>
    intro bs hbs hn
    rw [fitRetry_unfold]
    cases ho : oracle bs
    case success | keyboardInterrupt | otherError =>
      refine ⟨rfl, ?_, ?_⟩
      · intro i a b h1 h2
        rcases i with _ | j <;> simp at h2
      · intro last hlast
        simp only [List.getLast?_singleton, Option.some_inj] at hlast
        subst hlast
        refine ⟨fun hre => absurd hre (by rw [ho]; intro hc; cases hc), ?_, ?_⟩
        · intro _
          exact ⟨fun _ => rfl, fun h2 => by simp at h2⟩
        · rw [ho]
          constructor <;> intro hc <;> cases hc <;> rfl
    case resourceExhausted =>
      rw [if_pos (by omega)]
      refine ⟨rfl, ?_, ?_⟩
      · intro i a b h1 h2
        rcases i with _ | j <;> simp at h2
      · intro last hlast
        simp only [List.getLast?_singleton, Option.some_inj] at hlast
        subst hlast
        refine ⟨fun _ => ⟨rfl, by omega, rfl⟩, fun hne => absurd ho hne, ?_⟩
        rw [ho]
        constructor <;> intro hc <;> cases hc
  | succ n ih =>
    intro bs hbs hn
    rw [fitRetry_unfold]
    cases ho : oracle bs
    case success | keyboardInterrupt | otherError =>
      refine ⟨rfl, ?_, ?_⟩
      · intro i a b h1 h2
        rcases i with _ | j <;> simp at h2
      · intro last hlast
        simp only [List.getLast?_singleton, Option.some_inj] at hlast
        subst hlast
        refine ⟨fun hre => absurd hre (by rw [ho]; intro hc; cases hc), ?_, ?_⟩
        · intro _
          exact ⟨fun _ => rfl, fun h2 => by simp at h2⟩
        · rw [ho]
          constructor <;> intro hc <;> cases hc <;> rfl
    case resourceExhausted =>
      by_cases hlt : bs - 2 < 1
      · rw [if_pos hlt]
        refine ⟨rfl, ?_, ?_⟩
        · intro i a b h1 h2
          rcases i with _ | j <;> simp at h2
        · intro last hlast
          simp only [List.getLast?_singleton, Option.some_inj] at hlast
          subst hlast
          refine ⟨fun _ => ⟨rfl, hlt, rfl⟩, fun hne => absurd ho hne, ?_⟩
          rw [ho]
          constructor <;> intro hc <;> cases hc
      · rw [if_neg hlt]
        have hrec := ih (bs - 2) (bs - 2) (by omega)
        obtain ⟨ihHead, ihChain, ihLast⟩ := hrec
        obtain ⟨c, tr, htr⟩ : ∃ c tr, (fitRetry oracle (bs - 2) (bs - 2)).1 = c :: tr := by
          cases h : (fitRetry oracle (bs - 2) (bs - 2)).1 with
          | nil => rw [h] at ihHead; exact absurd ihHead (by simp)
          | cons c tr => exact ⟨c, tr, rfl⟩
        have hc2 : c = bs - 2 := by
          rw [htr] at ihHead
          simpa using ihHead
        subst hc2
        refine ⟨rfl, ?_, ?_⟩
        · intro i a b h1 h2
          rcases i with _ | j
          · simp only [List.getElem?_cons_zero, Option.some_inj] at h1
            subst h1
            simp only [List.getElem?_cons_succ] at h2
            rw [htr] at h2
            simp only [List.getElem?_cons_zero, Option.some_inj] at h2
            subst h2
            exact ⟨ho, rfl, by omega⟩
          · simp only [List.getElem?_cons_succ] at h1 h2
            exact ihChain j a b h1 h2
        · intro last hlast
          rw [htr, List.getLast?_cons_cons] at hlast
          have hlast' : (fitRetry oracle (bs - 2) (bs - 2)).1.getLast? = some last := by
            rw [htr]
            exact hlast
          obtain ⟨ihRE, ihnRE, ihR⟩ := ihLast last hlast'
          refine ⟨?_, ?_, ?_⟩
          · intro hre
            exact ihRE hre
          · intro hne
            obtain ⟨ihlen1, ihlen2⟩ := ihnRE hne
            constructor
            · intro hlen
              exfalso
              rw [htr] at hlen
              simp only [List.length_cons] at hlen
              omega
            · intro _
              rcases Nat.lt_or_ge (fitRetry oracle (bs - 2) (bs - 2)).1.length 2 with hl | hl
              · have htr0 : tr = [] := by
                  rw [htr] at hl
                  simp only [List.length_cons] at hl
                  exact List.length_eq_zero.mp (by omega)
                subst htr0
                have hlast1 : last = bs - 2 := by
                  rw [htr] at hlast'
                  exact (by simpa using hlast' : bs - 2 = last).symm
                have hl1 : (fitRetry oracle (bs - 2) (bs - 2)).1.length = 1 := by
                  rw [htr]
                  rfl
                rw [ihlen1 hl1, hlast1]
              · exact ihlen2 hl
          · exact ihR

/-- Claim C5: in the `Trainer.fit` retry loop, every retry follows a
`ResourceExhaustedError` with the batch size decreased by exactly 2 and
retried only while at least 1 (second conjunct); on each such error
`hparams["fit"]["batch_size"]` is set to the decreased size, so the final
value is `last_attempt - 2` when the last attempt also failed with OOM
(stopping without re-raising because the size fell below 1) and
`last_attempt` when an earlier attempt failed with OOM (third conjunct);
the loop re-raises exactly the outcomes that are neither
`ResourceExhaustedError` nor `KeyboardInterrupt` nor success (the `raised`
end, fourth part of the third conjunct). -/
theorem c5_fit_retry (oracle : Int → FitOutcome) (bs hbs : Int) :
    (fitRetry oracle bs hbs).1.head? = some bs ∧
    (∀ i a b, (fitRetry oracle bs hbs).1[i]? = some a →
      (fitRetry oracle bs hbs).1[i+1]? = some b →
      oracle a = .resourceExhausted ∧ b = a - 2 ∧ 1 ≤ b) ∧
    (∀ last, (fitRetry oracle bs hbs).1.getLast? = some last →
      ((oracle last = .resourceExhausted →
          (fitRetry oracle bs hbs).2.1 = last - 2 ∧ last - 2 < 1 ∧
          (fitRetry oracle bs hbs).2.2 = .finished) ∧
        (oracle last ≠ .resourceExhausted →
          ((fitRetry oracle bs hbs).1.length = 1 → (fitRetry oracle bs hbs).2.1 = hbs) ∧
          (2 ≤ (fitRetry oracle bs hbs).1.length → (fitRetry oracle bs hbs).2.1 = last)) ∧
        ((fitRetry oracle bs hbs).2.2 = .raised ↔ oracle last = .otherError))) :=
  fitRetry_props oracle bs.toNat bs hbs (Nat.le_refl _)

/-- Witness for C5: with `_fit_loop` failing with OOM at batch sizes ≥ 7
and succeeding below, starting at batch size 9 the attempts are 9, 7, 5;
the first retry drops 9 to 7; the final `hparams` batch size is 5. -/
theorem c5_witness :
    (fitRetry (fun b => if 7 ≤ b then FitOutcome.resourceExhausted else FitOutcome.success)
        9 9).1.head? = some 9 ∧
    ((fun b : Int => if 7 ≤ b then FitOutcome.resourceExhausted else FitOutcome.success) 9 =
        FitOutcome.resourceExhausted ∧ (7 : Int) = 9 - 2 ∧ (1 : Int) ≤ 7) ∧
    (2 ≤ (fitRetry (fun b => if 7 ≤ b then FitOutcome.resourceExhausted
          else FitOutcome.success) 9 9).1.length →
      (fitRetry (fun b => if 7 ≤ b then FitOutcome.resourceExhausted
          else FitOutcome.success) 9 9).2.1 = 5) :=
  ⟨(c5_fit_retry (fun b => if 7 ≤ b then FitOutcome.resourceExhausted
      else FitOutcome.success) 9 9).1,
    (c5_fit_retry (fun b => if 7 ≤ b then FitOutcome.resourceExhausted
      else FitOutcome.success) 9 9).2.1 0 9 7 (by decide) (by decide),
    (((c5_fit_retry (fun b => if 7 ≤ b then FitOutcome.resourceExhausted
      else FitOutcome.success) 9 9).2.2 5 (by decide)).2.1 (by decide)).2⟩

/-! ## Helper lemmas for claim C6 -/

/-- `initOneCallback` raises only ValueError. -/
theorem initOneCallback_err (tfReg tcbReg : List Str) (cbi : CbInput) (e : PyErr)
    (h : initOneCallback tfReg tcbReg cbi = .error e) : e = .valErr := by
  cases cbi with
  | obj nm => exact absurd h (by simp [initOneCallback])
  | desc d =>
    simp only [initOneCallback] at h
    by_cases h1 : tfReg.contains d.className = true
    · rw [if_pos h1] at h
      exact absurd h (by simp)
    · rw [if_neg h1] at h
      by_cases h2 : tcbReg.contains d.className = true
      · rw [if_pos h2] at h
        exact absurd h (by simp)
      · rw [if_neg h2] at h
        simp only [Except.error.injEq] at h
        exact h.symm

/-- The loop invariant of `initCbAux`: a successful run appends, behind the
already-reversed accumulator, one initialized callback per input, in
order. -/
theorem initCbAux_shape (tfReg tcbReg : List Str) :
    ∀ (cbs : List CbInput) (objs : List Callback) (dict : List (Str × Callback)) res,
      initCbAux tfReg tcbReg cbs objs dict = .ok res →
      ∃ tail, res.1 = objs.reverse ++ tail ∧ tail.length = cbs.length ∧
        (∀ (i : Nat) cbi, cbs[i]? = some cbi →
          ∃ pr, initOneCallback tfReg tcbReg cbi = .ok pr ∧ tail[i]? = some pr.1) := by
  intro cbs
  induction cbs with
  | nil =>
    intro objs dict res h
    simp only [initCbAux, Except.ok.injEq] at h
    subst h
    exact ⟨[], by simp, rfl, fun i cbi hcbi => by simp at hcbi⟩
  | cons c rest ih =>
    intro objs dict res h
    unfold initCbAux at h
    cases h1 : initOneCallback tfReg tcbReg c with
    | error e => rw [h1] at h; exact absurd h (by simp)
    | ok r =>
      rw [h1] at h
      obtain ⟨tail', ht1, ht2, ht3⟩ := ih (r.1 :: objs) (setKV r.2 r.1 dict) res h
      refine ⟨r.1 :: tail', ?_, by simp [ht2], ?_⟩
      · rw [ht1]
        simp
      · intro i cbi hcbi
        rcases i with _ | j
        · simp only [List.getElem?_cons_zero, Option.some_inj] at hcbi
          subst hcbi
          exact ⟨r, h1, by simp⟩
        · simp only [List.getElem?_cons_succ] at hcbi ⊢
          exact ht3 j cbi hcbi

/-- A ValueError from any descriptor aborts the whole loop. -/
theorem initCbAux_err (tfReg tcbReg : List Str) :
    ∀ (cbs : List CbInput) (objs : List Callback) (dict : List (Str × Callback)),
      (∃ cbi ∈ cbs, initOneCallback tfReg tcbReg cbi = .error .valErr) →
      initCbAux tfReg tcbReg cbs objs dict = .error .valErr := by
  intro cbs
  induction cbs with
  | nil =>
    intro objs dict h
    rcases h with ⟨cbi, hmem, _⟩
    simp at hmem
  | cons c rest ih =>
    intro objs dict h
    unfold initCbAux
    cases h1 : initOneCallback tfReg tcbReg c with
    | error e =>
      rw [initOneCallback_err tfReg tcbReg c e h1]
    | ok r =>
      rcases h with ⟨cbi, hmem, herr⟩
      rcases List.mem_cons.mp hmem with rfl | hmem'
      · rw [h1] at herr; exact absurd herr (by simp)
      · exact ih (r.1 :: objs) (setKV r.2 r.1 dict) ⟨cbi, hmem', herr⟩

/-- Claim C6: descriptor dicts resolve against the framework registry
first (even when the name is also in the custom registry), against the
custom registry only otherwise, and raise ValueError when the name is in
neither; a truthy `start_from` wraps the callback in a `DelayedCallback`
activating at that epoch, while an absent or zero `start_from` leaves it
unwrapped; the loop's output holds, at each descriptor's position, exactly
the callback so resolved, and a descriptor in neither registry aborts the
whole call with ValueError. -/
theorem c6_init_callbacks :
    (∀ (tfReg tcbReg : List Str) (d : CbDescriptor),
      tfReg.contains d.className = true →
      initOneCallback tfReg tcbReg (.desc d) =
        .ok (wrapStart d.startFrom (Callback.frameworkCb d.className
          (if d.passLogger then setKV "logger".data "logger".data d.kwargs else d.kwargs)),
          d.className)) ∧
    (∀ (tfReg tcbReg : List Str) (d : CbDescriptor),
      tfReg.contains d.className = false → tcbReg.contains d.className = true →
      initOneCallback tfReg tcbReg (.desc d) =
        .ok (wrapStart d.startFrom (Callback.customCb d.className
          (if d.passLogger then setKV "logger".data "logger".data d.kwargs else d.kwargs)),
          d.className)) ∧
    (∀ (tfReg tcbReg : List Str) (d : CbDescriptor),
      tfReg.contains d.className = false → tcbReg.contains d.className = false →
      initOneCallback tfReg tcbReg (.desc d) = .error .valErr) ∧
    (∀ (sf : Option Int) (cb : Callback),
      (∀ k, sf = some k → k ≠ 0 → wrapStart sf cb = .delayedCb cb k) ∧
      ((sf = none ∨ sf = some 0) → wrapStart sf cb = cb)) ∧
    (∀ (tfReg tcbReg : List Str) (cbs : List CbInput) res,
      initCallbackObjects tfReg tcbReg cbs = .ok res →
      ∀ (i : Nat) cbi, cbs[i]? = some cbi →
        ∃ pr, initOneCallback tfReg tcbReg cbi = .ok pr ∧ res.1[i]? = some pr.1) ∧
    (∀ (tfReg tcbReg : List Str) (cbs : List CbInput),
      (∃ cbi ∈ cbs, initOneCallback tfReg tcbReg cbi = .error .valErr) →
      initCallbackObjects tfReg tcbReg cbs = .error .valErr) := by
  refine ⟨?_, ?_, ?_, ?_, ?_, ?_⟩
  · intro tfReg tcbReg d h1
    simp only [initOneCallback]
    rw [if_pos h1]
  · intro tfReg tcbReg d h1 h2
    simp only [initOneCallback]
    rw [if_neg (fun hc => by rw [h1] at hc; exact Bool.noConfusion hc), if_pos h2]
  · intro tfReg tcbReg d h1 h2
    simp only [initOneCallback]
    rw [if_neg (fun hc => by rw [h1] at hc; exact Bool.noConfusion hc),
        if_neg (fun hc => by rw [h2] at hc; exact Bool.noConfusion hc)]
  · intro sf cb
    constructor
    · intro k hk hk0
      subst hk
      simp [wrapStart, hk0]
    · intro h
      rcases h with rfl | rfl
      · rfl
      · simp [wrapStart]
  · intro tfReg tcbReg cbs res h i cbi hcbi
    obtain ⟨tail, ht1, _, ht3⟩ := initCbAux_shape tfReg tcbReg cbs [] [] res h
    obtain ⟨pr, hpr1, hpr2⟩ := ht3 i cbi hcbi
    refine ⟨pr, hpr1, ?_⟩
    rw [ht1]
    simpa using hpr2
  · intro tfReg tcbReg cbs h
    exact initCbAux_err tfReg tcbReg cbs [] [] h

/-- Witness for C6: with framework registry `[EarlyStopping]` and custom
registry `[EarlyStopping, Validation]`, the name `EarlyStopping` resolves
to the framework class (priority), `Validation` with `start_from = 3` to
the custom class wrapped in a `DelayedCallback`, and `Nope` (in neither)
raises ValueError aborting the whole call. -/
theorem c6_witness :
    initOneCallback ["EarlyStopping".data] ["EarlyStopping".data, "Validation".data]
      (.desc ⟨"EarlyStopping".data, [], none, false⟩) =
      .ok (wrapStart none (Callback.frameworkCb "EarlyStopping".data
        (if false then setKV "logger".data "logger".data [] else [])), "EarlyStopping".data) ∧
    initOneCallback ["EarlyStopping".data] ["EarlyStopping".data, "Validation".data]
      (.desc ⟨"Validation".data, [], some 3, false⟩) =
      .ok (wrapStart (some 3) (Callback.customCb "Validation".data
        (if false then setKV "logger".data "logger".data [] else [])), "Validation".data) ∧
    wrapStart (some 3) (Callback.customCb "Validation".data []) =
      .delayedCb (Callback.customCb "Validation".data []) 3 ∧
    initCallbackObjects ["EarlyStopping".data] ["EarlyStopping".data, "Validation".data]
      [.desc ⟨"Nope".data, [], none, false⟩] = .error .valErr :=
  ⟨c6_init_callbacks.1 ["EarlyStopping".data] ["EarlyStopping".data, "Validation".data]
      ⟨"EarlyStopping".data, [], none, false⟩ (by decide),
    c6_init_callbacks.2.1 ["EarlyStopping".data] ["EarlyStopping".data, "Validation".data]
      ⟨"Validation".data, [], some 3, false⟩ (by decide) (by decide),
    (c6_init_callbacks.2.2.2.1 (some 3) (Callback.customCb "Validation".data [])).1 3
      rfl (by decide),
    c6_init_callbacks.2.2.2.2.2 ["EarlyStopping".data]
      ["EarlyStopping".data, "Validation".data] [.desc ⟨"Nope".data, [], none, false⟩]
      ⟨.desc ⟨"Nope".data, [], none, false⟩, by simp, by decide⟩⟩

/-- Witness for C10: an empty filesystem gives OSError (missing list file);
a list file with only blank lines gives OSError (empty image list); the
loader of `/d/images/a.nii` carries non-empty path lists. -/
theorem c10_witness :
    loaderInit ⟨[], fun _ => []⟩ "/d".data "images".data "labels".data false false =
      .error .osErr ∧
    loaderInit ⟨["/d/images/LIST_OF_FILES.txt".data], fun _ => ["   ".data]⟩
      "/d".data "images".data "labels".data false false = .error .osErr ∧
    (∃ ls, (⟨["/d/images/a.nii".data], some ["/d/labels/a.nii".data],
        [⟨"/d/images/a.nii".data, some "/d/labels/a.nii".data⟩]⟩ : Loader).labelPaths =
          some ls ∧ ls ≠ [] ∧
      (⟨["/d/images/a.nii".data], some ["/d/labels/a.nii".data],
        [⟨"/d/images/a.nii".data, some "/d/labels/a.nii".data⟩]⟩ : Loader).imagePaths ≠ []) :=
  ⟨c10_loader_empty_oserror.1 ⟨[], fun _ => []⟩
      "/d".data "images".data "labels".data false (by decide) (by decide),
    c10_loader_empty_oserror.2.1 ⟨["/d/images/LIST_OF_FILES.txt".data], fun _ => ["   ".data]⟩
      "/d".data "images".data "labels".data (by decide),
    c10_loader_empty_oserror.2.2 ⟨["/d/images/a.nii".data], fun _ => []⟩
      "/d".data "images".data "labels".data
      ⟨["/d/images/a.nii".data], some ["/d/labels/a.nii".data],
        [⟨"/d/images/a.nii".data, some "/d/labels/a.nii".data⟩]⟩ (by decide)⟩

/-- Claim C1 (evaluated at the failing input).  The consistency invariant —
parsing `string_rep` yields exactly the non-`__CB` dict contents — holds
after `__init__` but is broken by `add_group`: for the freshly constructed
object on `"fit:\n  epochs: 10\n"`, calling
`add_group("aug:\n  factor: 2\n")` stores the *whole* parsed document
`{aug: {factor: 2}}` under the key `aug` (hparams.py line 52 assigns
`YAML().load(yaml_string)`, not its `aug` entry), while parsing the updated
`string_rep` yields `{factor: 2}` as the top-level value of `aug`. -/
theorem c1_addGroup_breaks_consistency :
    (hpInit "fit:\n  epochs: 10\n".data).map consistentB = some true ∧
    ((hpInit "fit:\n  epochs: 10\n".data).bind
        (fun hp => addGroup hp "aug:\n  factor: 2\n".data)).map consistentB = some false ∧
    ((hpInit "fit:\n  epochs: 10\n".data).bind
        (fun hp => addGroup hp "aug:\n  factor: 2\n".data)).map
        (fun hp => lookupKV "aug".data hp.data) =
      some (some (DVal.doc [("aug".data, GVal.gmap [("factor".data, YVal.vint 2)])])) ∧
    ((hpInit "fit:\n  epochs: 10\n".data).bind
        (fun hp => addGroup hp "aug:\n  factor: 2\n".data)).map
        (fun hp => (yamlLoad hp.stringRep).map (fun d => lookupKV "aug".data d)) =
      some (some (some (GVal.gmap [("factor".data, YVal.vint 2)]))) := by
  refine ⟨by decide, by decide, by decide, by decide⟩

/-- Claim C8: `set_value(subdir, name, value)` with `overwrite=False`, where
`name` is already present in group `subdir` with a current value that is
neither `None` nor `False`, returns `False` and leaves the object (dict and
`string_rep`) unchanged. -/
theorem c8_setValue_no_overwrite (hp : HParams) (subdir name : Str) (value : YVal)
    (usr : Bool) (m : GMap) (cur : YVal)
    (hcell : lookupKV subdir hp.data = some (DVal.top (GVal.gmap m)))
    (hcur : lookupKV name m = some cur)
    (hnone : cur ≠ YVal.vnone) (hfalse : cur ≠ YVal.vbool false) :
    setValue hp subdir name value usr false = some (hp, false) := by
  unfold setValue
  rw [hcell]
  simp only [Option.bind_eq_bind, Option.some_bind, hcur]
  have h1 : (some cur == some YVal.vnone) = false := by
    simp [beq_iff_eq, hnone]
  have h2 : (some cur == some (YVal.vbool false)) = false := by
    simp [beq_iff_eq, hfalse]
  simp [h1, h2]

/-- Witness for C8: on the object loaded from
`"fit:\n  lr: Null\n  x: 1\n"`, setting `x` (current value `1`) with
`overwrite=False` returns `False` and changes nothing. -/
theorem c8_witness :
    setValue
      ⟨[("fit".data,
          DVal.top (GVal.gmap [("lr".data, YVal.vnone), ("x".data, YVal.vint 1)]))],
        "fit:\n  lr: Null\n  x: 1\n".data⟩
      "fit".data "x".data (YVal.vint 9) true false =
    some (⟨[("fit".data,
          DVal.top (GVal.gmap [("lr".data, YVal.vnone), ("x".data, YVal.vint 1)]))],
        "fit:\n  lr: Null\n  x: 1\n".data⟩, false) :=
  c8_setValue_no_overwrite _ "fit".data "x".data (YVal.vint 9) true
    [("lr".data, YVal.vnone), ("x".data, YVal.vint 1)] (YVal.vint 1)
    (by decide) (by decide) (by decide) (by decide)

/-- Claim C9: `__init__` loads exactly the top-level keys of the parsed YAML
document whose first four characters are not `"__CB"`; `__CB` keys are
absent from the dict while the raw text (including their lines) is kept
verbatim as `string_rep`. -/
theorem c9_init_filters_CB (text : Str) (d : Doc) (hp : HParams)
    (hload : yamlLoad text = some d) (hinit : hpInit text = some hp) :
    hp.stringRep = text ∧
    hp.data = (d.filter (fun kv => kv.1.take 4 ≠ "__CB".data)).map
      (fun kv => (kv.1, DVal.top kv.2)) ∧
    (∀ k, (∃ v, (k, v) ∈ hp.data) ↔ ((∃ g, (k, g) ∈ d) ∧ k.take 4 ≠ "__CB".data)) := by
  unfold hpInit at hinit
  rw [hload] at hinit
  simp only [Option.bind_eq_bind, Option.some_bind] at hinit
  by_cases hd : d = []
  · subst hd; simp at hinit
  · rw [if_neg hd] at hinit
    have hp_eq : hp = ⟨loadedEntries d, text⟩ := (Option.some_inj.mp hinit).symm
    subst hp_eq
    refine ⟨rfl, rfl, ?_⟩
    intro k
    simp only [loadedEntries, List.mem_map, List.mem_filter]
    constructor
    · rintro ⟨v, ⟨k', g⟩, ⟨hmem, hcb⟩, hpair⟩
      have hk : k' = k := congrArg Prod.fst hpair
      subst hk
      exact ⟨⟨g, hmem⟩, by simpa using hcb⟩
    · rintro ⟨⟨g, hmem⟩, hcb⟩
      exact ⟨DVal.top g, ⟨k, g⟩, ⟨hmem, by simpa using hcb⟩, rfl⟩

/-- Witness for C9: the file `"__CB_x: 3\nfit:\n  epochs: 10\n"` loads only
the key `fit`; the `__CB_x` line stays in `string_rep`. -/
theorem c9_witness :
    (⟨[("fit".data, DVal.top (GVal.gmap [("epochs".data, YVal.vint 10)]))],
        "__CB_x: 3\nfit:\n  epochs: 10\n".data⟩ : HParams).stringRep =
      "__CB_x: 3\nfit:\n  epochs: 10\n".data ∧
    (⟨[("fit".data, DVal.top (GVal.gmap [("epochs".data, YVal.vint 10)]))],
        "__CB_x: 3\nfit:\n  epochs: 10\n".data⟩ : HParams).data =
      ([(("__CB_x".data : Str), GVal.scal (YVal.vint 3)),
          ("fit".data, GVal.gmap [("epochs".data, YVal.vint 10)])].filter
            (fun kv => kv.1.take 4 ≠ "__CB".data)).map (fun kv => (kv.1, DVal.top kv.2)) ∧
    (∀ k, (∃ v, (k, v) ∈
        (⟨[("fit".data, DVal.top (GVal.gmap [("epochs".data, YVal.vint 10)]))],
          "__CB_x: 3\nfit:\n  epochs: 10\n".data⟩ : HParams).data) ↔
      ((∃ g, (k, g) ∈ [(("__CB_x".data : Str), GVal.scal (YVal.vint 3)),
          ("fit".data, GVal.gmap [("epochs".data, YVal.vint 10)])]) ∧
        k.take 4 ≠ "__CB".data)) :=
  c9_init_filters_CB "__CB_x: 3\nfit:\n  epochs: 10\n".data
    [(("__CB_x".data : Str), GVal.scal (YVal.vint 3)),
      ("fit".data, GVal.gmap [("epochs".data, YVal.vint 10)])]
    ⟨[("fit".data, DVal.top (GVal.gmap [("epochs".data, YVal.vint 10)]))],
      "__CB_x: 3\nfit:\n  epochs: 10\n".data⟩
    (by decide) (by decide)

end MPU
